import Mathlib

/-!
A shallow embedding of the `flagfig` Go package (file `flagfig.go`): a
registry of typed command-line settings whose values are collated from
JSON configuration files, environment variables, and explicit
command-line flags.

External collaborators (the Go standard `flag` package's registration /
`Set` machinery, `os.Getenv`, file reading and JSON decoding) are
modelled from the spec's collaborator contract (§6); the package's own
logic (`Collate`, `readConfigurationFiles`, the registration methods,
`AddConfigFile`, `Parse`) is translated directly from `flagfig.go`.

Strings are Lean `String`s; the numeric formatting done by the Go code
via `fmt.Sprintf` verbs (`%.0f`, `%f`, `%18.0f`) is modelled over `ℚ`
(JSON numbers decode to Go `float64`; every concrete number appearing in
a theorem below is exactly representable, so the rational model agrees
with the binary one on everything proved here).
-/

namespace Flagfig
/-- Numeric value of a decimal digit character (`c - '0'`). -/
def digitVal (c : Char) : ℕ := c.toNat - 48

/-- Decimal digit characters of `n`, most significant first, fuelled
recursion (`fuel` must exceed the number of digits; callers pass `n`). -/
def natToCharsAux : ℕ → ℕ → List Char
  | 0, _ => []
  | fuel + 1, n =>
    if n = 0 then [] else natToCharsAux fuel (n / 10) ++ [Nat.digitChar (n % 10)]

/-- Decimal representation of a natural number, as the Go `strconv` /
`fmt` packages print it (no sign, no padding; `0` prints as `"0"`). -/
def natToChars (n : ℕ) : List Char :=
  if n = 0 then ['0'] else natToCharsAux n n

/-- Parse a nonempty all-digit character list as a decimal natural
number (the core of the `strconv` parse functions used by the `flag`
package's typed `Set` operations). -/
def parseNatDigits (l : List Char) : Option ℕ :=
  if !l.isEmpty && l.all Char.isDigit then
    some (l.foldl (fun a c => 10 * a + digitVal c) 0)
  else
    none

/-- Model of `strconv.ParseBool` (used by the `flag` package's bool
values): exactly these twelve literals are accepted. -/
def parseBoolStr (s : String) : Option Bool :=
  if s = "1" || s = "t" || s = "T" || s = "true" || s = "TRUE" || s = "True" then some true
  else if s = "0" || s = "f" || s = "F" || s = "false" || s = "FALSE" || s = "False" then some false
  else none

/-- Magnitude part of a signed decimal integer. -/
def parseIntMag (l : List Char) : Option ℤ :=
  (parseNatDigits l).map (fun n => (n : ℤ))

/-- Model of the decimal fragment of `strconv.ParseInt(s, 0, 64)` as used
by the `flag` package's int values (the `0x`/`0o`/`0b` prefix and
underscore forms accepted by base 0 are not modelled: no string produced
by the configuration pipeline uses them). The 64-bit range check is
applied in `parseAs`. -/
def parseIntChars (l : List Char) : Option ℤ :=
  if l.head? = some '-' then (parseIntMag l.tail).map Neg.neg
  else if l.head? = some '+' then parseIntMag l.tail
  else parseIntMag l

/-- Unsigned decimal fraction or integer: the decimal fragment of
`strconv.ParseFloat` (exponent, hexadecimal-float, `inf`/`nan`, and the
`"5."`/`".5"` forms are not modelled: no string produced by the
configuration pipeline uses them). -/
def parseUnsignedFloatChars (l : List Char) : Option ℚ :=
  match l.dropWhile Char.isDigit with
  | [] => (parseNatDigits (l.takeWhile Char.isDigit)).map (fun n => (n : ℚ))
  | '.' :: frac =>
    match parseNatDigits (l.takeWhile Char.isDigit), parseNatDigits frac with
    | some n, some fr => some (mkRat ((n : ℤ) * 10 ^ frac.length + (fr : ℤ)) (10 ^ frac.length))
    | _, _ => none
  | _ => none

/-- Model of `strconv.ParseFloat` over `ℚ` (see
`parseUnsignedFloatChars` for the modelled fragment). -/
def parseFloatChars (l : List Char) : Option ℚ :=
  if l.head? = some '-' then (parseUnsignedFloatChars l.tail).map (fun q => -q)
  else if l.head? = some '+' then parseUnsignedFloatChars l.tail
  else parseUnsignedFloatChars l

/-- Nanosecond multiplier of a `time.ParseDuration` unit suffix. -/
def durationUnitMult : List Char → Option ℤ
  | ['n', 's'] => some 1
  | ['u', 's'] => some 1000
  | ['m', 's'] => some 1000000
  | ['s'] => some 1000000000
  | ['m'] => some 60000000000
  | ['h'] => some 3600000000000
  | _ => none

/-- Unsigned single-component duration: digits followed by one unit,
with the 64-bit overflow check `ParseDuration` performs. -/
def parseDurationMag (l : List Char) : Option ℤ :=
  match parseNatDigits (l.takeWhile Char.isDigit),
      durationUnitMult (l.dropWhile Char.isDigit) with
  | some n, some m => if (n : ℤ) * m < 2 ^ 63 then some ((n : ℤ) * m) else none
  | _, _ => none

/-- Model of the fragment of `time.ParseDuration` exercised by this
package: an optional sign, one run of decimal digits and one unit
suffix, yielding nanoseconds (multi-component strings such as `"1h30m"`
and fractional components are not modelled: the configuration pipeline
only ever produces `<digits>ns`). -/
def parseDurationChars (l : List Char) : Option ℤ :=
  if l.head? = some '-' then (parseDurationMag l.tail).map Neg.neg
  else if l.head? = some '+' then parseDurationMag l.tail
  else parseDurationMag l

/-- Round the fraction `n / d` to the nearest natural number, ties to
even: the rounding `fmt` applies when formatting with a fixed number of
fractional digits (expressed on numerator and denominator so that it
evaluates by pure `ℕ` arithmetic). -/
def rheDiv (n d : ℕ) : ℕ :=
  let f := n / d
  let r := n % d
  if 2 * r < d then f else if d < 2 * r then f + 1 else if f % 2 = 0 then f else f + 1

/-- Model of `fmt.Sprintf("%.0f", v)`: sign, then the magnitude rounded
to an integer, in decimal. -/
def fmtF0 (q : ℚ) : List Char :=
  (if q.num < 0 then ['-'] else []) ++ natToChars (rheDiv q.num.natAbs q.den)

/-- Pad a digit run on the left with `'0'` up to length `k`. -/
def padZeroTo (k : ℕ) (l : List Char) : List Char :=
  List.replicate (k - l.length) '0' ++ l

/-- Model of `fmt.Sprintf("%f", v)`: fixed-point with exactly six
fractional digits (Go's default precision for `%f`; this is not a
full-precision rendering). `|q| * 10 ^ 6` is computed on the numerator
so everything evaluates by pure `ℕ` arithmetic. -/
def fmtF6 (q : ℚ) : List Char :=
  let n := rheDiv (q.num.natAbs * 10 ^ 6) q.den
  (if q.num < 0 then ['-'] else []) ++
    natToChars (n / 10 ^ 6) ++ '.' :: padZeroTo 6 (natToChars (n % 10 ^ 6))

/-- `q` rounded to six fractional decimal digits, sign preserved and
the magnitude rounded ties-to-even: the rational a Float64 setting
actually receives for the file value `q`, i.e. the composition of `%f`
formatting with `ParseFloat`. -/
def roundSixDecimals (q : ℚ) : ℚ :=
  if q.num < 0 then
    -(mkRat ((rheDiv (q.num.natAbs * 10 ^ 6) q.den : ℕ) : ℤ) (10 ^ 6))
  else
    mkRat ((rheDiv (q.num.natAbs * 10 ^ 6) q.den : ℕ) : ℤ) (10 ^ 6)

/-- Pad on the left with spaces up to length `k` (the width part of the
`%18.0f` verb). -/
def padSpacesTo (k : ℕ) (l : List Char) : List Char :=
  List.replicate (k - l.length) ' ' ++ l

/-- Model of `strings.TrimSpace` (the only whitespace that occurs in
this pipeline is the space character used by `%18.0f` padding). -/
def trimSpaceChars (l : List Char) : List Char :=
  ((l.dropWhile (fun c => c == ' ')).reverse.dropWhile (fun c => c == ' ')).reverse

/-- The string handed to `Set` for a Duration-declared setting whose
file value is the JSON number `q`:
`strings.TrimSpace(fmt.Sprintf("%18.0fns", v))` from
`readConfigurationFiles`. -/
def durationFileChars (q : ℚ) : List Char :=
  trimSpaceChars (padSpacesTo 18 (fmtF0 q) ++ ['n', 's'])

/-- The type tags of `flagfig.go` (`intType`, `stringType`, ...): the
`flagTypes` registry entries driving the numeric coercion switch. -/
inductive Kind
  | intType
  | stringType
  | boolType
  | floatType
  | int64Type
  | uintType
  | uint64Type
  | durationType
deriving DecidableEq

/-- A typed resolved value held in a flag's backing cell. Machine
integers are modelled as `ℤ`/`ℕ` with the 64-bit range enforced at
parse time; `float64` as `ℚ`; `time.Duration` as nanoseconds in `ℤ`. -/
inductive Value
  | bool (b : Bool)
  | str (s : String)
  | int (i : ℤ)
  | uint (n : ℕ)
  | float (q : ℚ)
  | duration (ns : ℤ)
deriving DecidableEq

/-- The `flag` package's typed string-to-value conversion used by
`FlagSet.Set` (collaborator contract, spec §6(d)): dispatches on the
flag's declared kind. `int`/`int64` and `uint`/`uint64` coincide on a
64-bit platform. -/
def parseAs (k : Kind) (s : String) : Option Value :=
  match k with
  | .stringType => some (.str s)
  | .boolType => (parseBoolStr s).map Value.bool
  | .intType | .int64Type =>
    (parseIntChars s.data).bind
      (fun i => if -(2 ^ 63) ≤ i ∧ i < 2 ^ 63 then some (.int i) else none)
  | .uintType | .uint64Type =>
    (parseNatDigits s.data).bind
      (fun n => if n < 2 ^ 64 then some (.uint n) else none)
  | .floatType => (parseFloatChars s.data).map Value.float
  | .durationType => (parseDurationChars s.data).map Value.duration

/-- A value decoded from a JSON configuration file. Go's
`json.Unmarshal` into `map[string]interface{}` produces `bool`,
`string`, or `float64` for scalars (every JSON number decodes to
`float64`), and `map[string]interface{}` / `[]interface{}` / `nil` for
objects, arrays, and null — collapsed here into `unsupported`, which
hits the `default:` arm of the type switch. The `case int`, `case
int64`, `case uint`, `case uint64` arms of `readConfigurationFiles` are
unreachable (the decoder never produces those Go types) and so have no
counterpart in this model. -/
inductive JSONValue
  | bool (b : Bool)
  | str (s : String)
  | num (q : ℚ)
  | unsupported
deriving DecidableEq

/-- Outcome of reading and decoding one configuration file path:
`ioutil.ReadFile` failure, `json.Unmarshal` failure, or a decoded flat
object. The filesystem is an oracle `String → ReadResult`. -/
inductive ReadResult
  | unreadable
  | badJSON
  | object (entries : List (String × JSONValue))
deriving DecidableEq

/-- Error returned by the flag mechanism's `Set` (collaborator contract
§6(d)): unknown flag name, or the string failed the typed conversion. -/
inductive SetErr
  | unknownFlag (name : String)
  | parseFailure (name val : String)
deriving DecidableEq

/-- Conditions under which resolution aborts the process:
`panic(err)` on an unreadable file, `log.Fatalf` on an unsupported
JSON value type. -/
inductive Fatal
  | readError (path : String)
  | unsupportedType (key : String)
deriving DecidableEq

/-- Non-fatal log output produced during resolution: the
`log.Printf("Unable to JSON Decode file: ...")` line. -/
inductive LogEntry
  | decodeFailure (path : String)
deriving DecidableEq

/-- One registered flag of the underlying `flag.FlagSet` (collaborator
contract §6(a)): name, typed kind, registered default, current cell
content, and whether the flag was explicitly supplied on the command
line (`Visit` reports exactly the visited ones). -/
structure FlagEntry where
  name : String
  kind : Kind
  defVal : Value
  value : Value
  visited : Bool
deriving DecidableEq

/-- The `FlagfigSet` of `flagfig.go`: an embedded `flag.FlagSet`
(modelled as the `flags` list in registration order), the `flagTypes`
and `envNames` maps (association lists), and the ordered
`configFilePaths` (the path flags' names; Go stores pointers to their
backing cells). -/
structure FlagfigSet where
  flags : List FlagEntry
  flagTypes : List (String × Kind)
  envNames : List (String × String)
  configFilePaths : List String
deriving DecidableEq

/-- `NewFlagfigSet`: empty registry. -/
def NewFlagfigSet : FlagfigSet := ⟨[], [], [], []⟩

/-- Map read on an association list (Go `m[k]` two-result form). -/
def assocGet {α : Type} (l : List (String × α)) (key : String) : Option α :=
  match l with
  | [] => none
  | (k, v) :: rest => if k = key then some v else assocGet rest key

/-- Map write on an association list (Go `m[k] = v`): replaces an
existing binding in place, otherwise appends. -/
def assocUpsert {α : Type} (l : List (String × α)) (key : String) (v : α) :
    List (String × α) :=
  match l with
  | [] => [(key, v)]
  | (k, w) :: rest =>
    if k = key then (key, v) :: rest else (k, w) :: assocUpsert rest key v

/-- `flag.FlagSet.Lookup`: first entry with the given name. -/
def findFlag (fls : List FlagEntry) (name : String) : Option FlagEntry :=
  match fls with
  | [] => none
  | e :: rest => if e.name = name then some e else findFlag rest name

/-- Overwrite the value cell of the named flag. -/
def setValue (fls : List FlagEntry) (name : String) (w : Value) : List FlagEntry :=
  match fls with
  | [] => []
  | e :: rest =>
    if e.name = name then { e with value := w } :: rest else e :: setValue rest name w

/-- Overwrite the value cell of the named flag and record it as
explicitly set (what a successful `Set` during command-line parsing
does). -/
def setValueVisited (fls : List FlagEntry) (name : String) (w : Value) : List FlagEntry :=
  match fls with
  | [] => []
  | e :: rest =>
    if e.name = name then { e with value := w, visited := true } :: rest
    else e :: setValueVisited rest name w

/-- Registration into the underlying `flag.FlagSet` (collaborator
`Var`, §6(a)): binds name, kind, and default into a fresh cell.
Duplicate-name behavior is modelled from the spec's words (§4.1):
later registration overwrites the earlier one in place. -/
def flagUpsert (fls : List FlagEntry) (e : FlagEntry) : List FlagEntry :=
  match fls with
  | [] => [e]
  | f :: rest => if f.name = e.name then e :: rest else f :: flagUpsert rest e

/-- The common body of the typed registration methods of `flagfig.go`
(`(f *FlagfigSet) String/Bool/Int/Int64/Uint/Uint64/Float64/Duration`):
`f.envNames[name] = envName; f.flagTypes[name] = kind;
f.FlagSet.<T>Var(p, name, defaultValue, usage)`. -/
def FlagfigSet.declare (fs : FlagfigSet) (name : String) (k : Kind)
    (defaultValue : Value) (envName : String) : FlagfigSet :=
  { fs with
    envNames := assocUpsert fs.envNames name envName
    flagTypes := assocUpsert fs.flagTypes name k
    flags := flagUpsert fs.flags ⟨name, k, defaultValue, defaultValue, false⟩ }

/-- `(f *FlagfigSet) String` (named `stringFlag` here because `String`
is taken by the Lean core type). -/
def FlagfigSet.stringFlag (fs : FlagfigSet) (name defaultValue envName _usage : String) :
    FlagfigSet :=
  fs.declare name .stringType (.str defaultValue) envName

/-- `(f *FlagfigSet) Bool`. -/
def FlagfigSet.boolFlag (fs : FlagfigSet) (name : String) (defaultValue : Bool)
    (envName _usage : String) : FlagfigSet :=
  fs.declare name .boolType (.bool defaultValue) envName

/-- `(f *FlagfigSet) Int`. -/
def FlagfigSet.intFlag (fs : FlagfigSet) (name : String) (defaultValue : ℤ)
    (envName _usage : String) : FlagfigSet :=
  fs.declare name .intType (.int defaultValue) envName

/-- `(f *FlagfigSet) Int64`. -/
def FlagfigSet.int64Flag (fs : FlagfigSet) (name : String) (defaultValue : ℤ)
    (envName _usage : String) : FlagfigSet :=
  fs.declare name .int64Type (.int defaultValue) envName

/-- `(f *FlagfigSet) Uint`. -/
def FlagfigSet.uintFlag (fs : FlagfigSet) (name : String) (defaultValue : ℕ)
    (envName _usage : String) : FlagfigSet :=
  fs.declare name .uintType (.uint defaultValue) envName

/-- `(f *FlagfigSet) Uint64`. -/
def FlagfigSet.uint64Flag (fs : FlagfigSet) (name : String) (defaultValue : ℕ)
    (envName _usage : String) : FlagfigSet :=
  fs.declare name .uint64Type (.uint defaultValue) envName

/-- `(f *FlagfigSet) Float64`. -/
def FlagfigSet.float64Flag (fs : FlagfigSet) (name : String) (defaultValue : ℚ)
    (envName _usage : String) : FlagfigSet :=
  fs.declare name .floatType (.float defaultValue) envName

/-- `(f *FlagfigSet) Duration` (default in nanoseconds). -/
def FlagfigSet.durationFlag (fs : FlagfigSet) (name : String) (defaultValue : ℤ)
    (envName _usage : String) : FlagfigSet :=
  fs.declare name .durationType (.duration defaultValue) envName

/-- `(f *FlagfigSet) AddConfigFile`: registers a plain string flag with
default `""` (no `envNames`/`flagTypes` entry) and appends its cell to
the ordered configuration-file list. -/
def FlagfigSet.AddConfigFile (fs : FlagfigSet) (name _usage : String) : FlagfigSet :=
  { fs with
    configFilePaths := fs.configFilePaths ++ [name]
    flags := flagUpsert fs.flags ⟨name, .stringType, .str "", .str "", false⟩ }

/-- `flag.FlagSet.Set(name, s)` (collaborator §6(d)): looks the flag
up, runs its typed string conversion, and on success overwrites the
cell; the state is unchanged on failure. -/
def flagSetSet (fls : List FlagEntry) (name s : String) :
    List FlagEntry × Option SetErr :=
  match findFlag fls name with
  | none => (fls, some (.unknownFlag name))
  | some e =>
    match parseAs e.kind s with
    | none => (fls, some (.parseFailure name s))
    | some w => (setValue fls name w, none)

/-- One explicit command-line assignment `-name=value` during
`flag.FlagSet.Parse` (collaborator §6(b)): a successful `Set` that also
records the flag as explicitly set; a failure aborts parsing. -/
def cmdlineSet (fls : List FlagEntry) (name s : String) :
    Except SetErr (List FlagEntry) :=
  match findFlag fls name with
  | none => .error (.unknownFlag name)
  | some e =>
    match parseAs e.kind s with
    | none => .error (.parseFailure name s)
    | some w => .ok (setValueVisited fls name w)

/-- `flag.FlagSet.Parse` over already-tokenized `(name, value)` pairs
(tokenization is out of scope, spec §1). -/
def applyCmdline (fls : List FlagEntry) :
    List (String × String) → Except SetErr (List FlagEntry)
  | [] => .ok fls
  | (n, v) :: rest =>
    match cmdlineSet fls n v with
    | .error e => .error e
    | .ok fls2 => applyCmdline fls2 rest

/-- The body of the `switch v := val.(type)` in
`readConfigurationFiles`, for one key that passed the
`unvisitedFlags` membership guard. JSON bools and strings are handed to
`Set` directly (`Set` errors are discarded); a JSON number dispatches on
`f.flagTypes[key]` — Go's map read yields the zero value `intType` when
the key is missing — with `%.0f` for the four integer kinds, `%f` for
Float64, and `TrimSpace("%18.0fns")` for Duration; `stringType` and
`boolType` match no case of that inner switch, so a JSON number for
such a setting falls through with no effect; an unsupported JSON type
hits `log.Fatalf`. -/
def applyFileValue (flagTypes : List (String × Kind)) (fls : List FlagEntry)
    (key : String) (v : JSONValue) : Except Fatal (List FlagEntry) :=
  match v with
  | .bool b => .ok (flagSetSet fls key (if b then "true" else "false")).1
  | .str s => .ok (flagSetSet fls key s).1
  | .num q =>
    match (assocGet flagTypes key).getD .intType with
    | .intType => .ok (flagSetSet fls key (String.mk (fmtF0 q))).1
    | .uintType => .ok (flagSetSet fls key (String.mk (fmtF0 q))).1
    | .int64Type => .ok (flagSetSet fls key (String.mk (fmtF0 q))).1
    | .uint64Type => .ok (flagSetSet fls key (String.mk (fmtF0 q))).1
    | .floatType => .ok (flagSetSet fls key (String.mk (fmtF6 q))).1
    | .durationType => .ok (flagSetSet fls key (String.mk (durationFileChars q))).1
    | .stringType => .ok fls
    | .boolType => .ok fls
  | .unsupported => .error (.unsupportedType key)

/-- The `for key, val := range jsonDat` loop of
`readConfigurationFiles` with its `unvisitedFlags` membership guard.
Go iterates the decoded map in unspecified order; entries are processed
in list order here, and every theorem below is insensitive to that
order (decoded objects bind each key once). -/
def processEntries (flagTypes : List (String × Kind)) (unvisited : List String)
    (fls : List FlagEntry) :
    List (String × JSONValue) → Except Fatal (List FlagEntry)
  | [] => .ok fls
  | (key, v) :: rest =>
    if key ∈ unvisited then
      match applyFileValue flagTypes fls key v with
      | .error f => .error f
      | .ok fls2 => processEntries flagTypes unvisited fls2 rest
    else processEntries flagTypes unvisited fls rest

/-- Current value of a config-path flag: the string cell bound by
`AddConfigFile` (`""` when absent, matching the `filePath != nil`
guard's intent). -/
def pathValue (fls : List FlagEntry) (cf : String) : String :=
  match findFlag fls cf with
  | some e =>
    match e.value with
    | .str s => s
    | _ => ""
  | none => ""

/-- The file loop of `readConfigurationFiles`: for each registered path
flag in order, skip when the path is empty; `panic` when unreadable;
log and skip the file when JSON decoding fails; otherwise process its
entries. The path is read from the current state at its turn, exactly
as Go dereferences the pointer inside the loop. -/
def readFilesAux (fsys : String → ReadResult) (flagTypes : List (String × Kind))
    (unvisited : List String) :
    List String → List FlagEntry → List LogEntry →
      Except Fatal (List FlagEntry × List LogEntry)
  | [], fls, logs => .ok (fls, logs)
  | cf :: rest, fls, logs =>
    let path := pathValue fls cf
    if path = "" then readFilesAux fsys flagTypes unvisited rest fls logs
    else
      match fsys path with
      | .unreadable => .error (.readError path)
      | .badJSON =>
        readFilesAux fsys flagTypes unvisited rest fls (logs ++ [.decodeFailure path])
      | .object entries =>
        match processEntries flagTypes unvisited fls entries with
        | .error f => .error f
        | .ok fls2 => readFilesAux fsys flagTypes unvisited rest fls2 logs

/-- `(f *FlagfigSet) readConfigurationFiles`. -/
def FlagfigSet.readConfigurationFiles (fs : FlagfigSet) (fsys : String → ReadResult)
    (unvisited : List String) : Except Fatal (List FlagEntry × List LogEntry) :=
  readFilesAux fsys fs.flagTypes unvisited fs.configFilePaths fs.flags []

/-- `os.Getenv`: no environment variable has an empty name, so looking
up `""` yields `""`. -/
def getenv (env : String → String) (name : String) : String :=
  if name = "" then "" else env name

/-- Names of the flags not explicitly set on the command line
(`allFlags` minus `Visit`-reported ones). Go collects them into a map
and iterates it in unspecified order; they are kept in registration
order here, and every theorem below is insensitive to that order. -/
def unvisitedNames (fls : List FlagEntry) : List String :=
  (fls.filter (fun e => !e.visited)).map FlagEntry.name

/-- The environment loop of `Collate`: for each not-explicitly-set
flag, when its registered environment name looks up a non-empty value,
`err = f.FlagSet.Set(...)` — note the accumulator is overwritten (with
`nil` on success too) at every qualifying flag, exactly as the Go `err`
variable is. -/
def envLoop (env : String → String) (envNames : List (String × String)) :
    List String → List FlagEntry → Option SetErr → List FlagEntry × Option SetErr
  | [], fls, errAcc => (fls, errAcc)
  | name :: rest, fls, errAcc =>
    match assocGet envNames name with
    | none => envLoop env envNames rest fls errAcc
    | some envName =>
      let envVal := getenv env envName
      if envVal = "" then envLoop env envNames rest fls errAcc
      else
        envLoop env envNames rest (flagSetSet fls name envVal).1 (flagSetSet fls name envVal).2

/-- `(f *FlagfigSet) Collate`: compute the not-explicitly-set flags,
read configuration files (fatal conditions abort), then apply the
environment loop; returns the final registry, the produced log lines,
and the `err` the Go function returns. -/
def FlagfigSet.Collate (fs : FlagfigSet) (env : String → String)
    (fsys : String → ReadResult) :
    Except Fatal (FlagfigSet × List LogEntry × Option SetErr) :=
  let unvisited := unvisitedNames fs.flags
  match readFilesAux fsys fs.flagTypes unvisited fs.configFilePaths fs.flags [] with
  | .error f => .error f
  | .ok (fls2, logs) =>
    .ok ({ fs with flags := (envLoop env fs.envNames unvisited fls2 none).1 }, logs,
      (envLoop env fs.envNames unvisited fls2 none).2)

/-- How a run can fail before producing a registry: a command-line
parse error (returned by `FlagSet.Parse`), or a fatal abort
(`panic` / `log.Fatalf`, which never return). -/
inductive RunError
  | argError (e : SetErr)
  | fatal (f : Fatal)
deriving DecidableEq

/-- `(f *FlagfigSet) Parse`: parse the command line, then `Collate`.
The `Option SetErr` component is the error `Collate` returns (Go's
`Parse` passes it through as its own result). -/
def FlagfigSet.Parse (fs : FlagfigSet) (args : List (String × String))
    (env : String → String) (fsys : String → ReadResult) :
    Except RunError (FlagfigSet × List LogEntry × Option SetErr) :=
  match applyCmdline fs.flags args with
  | .error e => .error (.argError e)
  | .ok fls1 =>
    match FlagfigSet.Collate { fs with flags := fls1 } env fsys with
    | .error f => .error (.fatal f)
    | .ok out => .ok out

/-- A registration step of a client program: one typed setting
declaration or one `AddConfigFile`. -/
inductive Decl
  | setting (name : String) (k : Kind) (defaultValue : Value) (envName : String)
  | configFile (name : String)
deriving DecidableEq

/-- Execute one registration step. -/
def applyDecl (fs : FlagfigSet) : Decl → FlagfigSet
  | .setting name k dv en => fs.declare name k dv en
  | .configFile name => fs.AddConfigFile name ""

/-- The registered name of a declaration. -/
def declName : Decl → String
  | .setting name _ _ _ => name
  | .configFile name => name

/-- Run the declarations against a fresh `NewFlagfigSet`. -/
def registerDecls (decls : List Decl) : FlagfigSet :=
  decls.foldl applyDecl NewFlagfigSet

/-- A whole client run: register, parse the command line, collate. -/
def runFlagfig (decls : List Decl) (args : List (String × String))
    (env : String → String) (fsys : String → ReadResult) :
    Except RunError (FlagfigSet × List LogEntry × Option SetErr) :=
  (registerDecls decls).Parse args env fsys

instance {e a : Type} [DecidableEq e] [DecidableEq a] : DecidableEq (Except e a) := fun x y =>
  match x, y with
  | .ok u, .ok v =>
    if h : u = v then isTrue (by rw [h]) else isFalse (fun hh => by cases hh; exact h rfl)
  | .error u, .error v =>
    if h : u = v then isTrue (by rw [h]) else isFalse (fun hh => by cases hh; exact h rfl)
  | .ok _, .error _ => isFalse (fun hh => by cases hh)
  | .error _, .ok _ => isFalse (fun hh => by cases hh)

/-- The resolved value a client observes through its returned handle
after a successful run. -/
def resolvedValue (out : Except RunError (FlagfigSet × List LogEntry × Option SetErr))
    (name : String) : Option Value :=
  match out with
  | .ok (fs, _, _) => (findFlag fs.flags name).map FlagEntry.value
  | _ => none

/-- The error `Parse` returned from `Collate` after a successful run
(`none` when the run itself failed). -/
def runCollateErr (out : Except RunError (FlagfigSet × List LogEntry × Option SetErr)) :
    Option SetErr :=
  match out with
  | .ok (_, _, err) => err
  | _ => none

/-- The log lines of a successful run. -/
def runLogs (out : Except RunError (FlagfigSet × List LogEntry × Option SetErr)) :
    List LogEntry :=
  match out with
  | .ok (_, logs, _) => logs
  | _ => []

/-- Everything except the value cell: the part of a flag entry no
`Set` ever changes. -/
def shapeEq (e f : FlagEntry) : Prop :=
  e.name = f.name ∧ e.kind = f.kind ∧ e.defVal = f.defVal ∧ e.visited = f.visited

/-- Two registries with the same flags up to value cells. -/
def shapePres (fls fls2 : List FlagEntry) : Prop := List.Forall₂ shapeEq fls fls2

/-- The side condition of the spec's step 4 for one setting: its
registered environment name exists and looks up a non-empty value (the
exact condition under which the environment loop calls `Set`). -/
def envTrig (envNames : List (String × String)) (env : String → String) (n : String) : Bool :=
  match assocGet envNames n with
  | none => false
  | some en => !(getenv env en == "")

/-- The string the type switch of `readConfigurationFiles` hands to
`Set` for one JSON value — `none` when the switch has no matching case
and the value falls through, or when the value is unsupported (which in
the real switch is `log.Fatalf`, handled separately in
`applyFileValue`). -/
def fileSetString (ft : List (String × Kind)) (key : String) : JSONValue → Option String
  | .bool b => some (if b then "true" else "false")
  | .str s => some s
  | .num q =>
    match (assocGet ft key).getD .intType with
    | .intType => some (String.mk (fmtF0 q))
    | .uintType => some (String.mk (fmtF0 q))
    | .int64Type => some (String.mk (fmtF0 q))
    | .uint64Type => some (String.mk (fmtF0 q))
    | .floatType => some (String.mk (fmtF6 q))
    | .durationType => some (String.mk (durationFileChars q))
    | .stringType => none
    | .boolType => none
  | .unsupported => none

/-- C5 scenario: one String-declared setting `s` (default `"d"`) and a
file giving `s` a JSON bool. -/
def c5decls : List Decl := [.configFile "config", .setting "s" .stringType (.str "d") ""]

def c5args : List (String × String) := [("config", "f1")]

def c5env : String → String := fun _ => ""

def c5fsys : String → ReadResult
  | "f1" => .object [("s", .bool true)]
  | _ => .unreadable

def c5fls : List FlagEntry := [⟨"s", .stringType, .str "d", .str "d", false⟩]

def c5entry : FlagEntry := ⟨"s", .stringType, .str "d", .str "d", false⟩

def c6fls : List FlagEntry := [⟨"c", .stringType, .str "", .str "pb", true⟩]

def c6flsU : List FlagEntry := [⟨"c", .stringType, .str "", .str "pu", true⟩]

def c6flsO : List FlagEntry := [⟨"c", .stringType, .str "", .str "po", true⟩]

def c6fsys : String → ReadResult
  | "pb" => .badJSON
  | "pu" => .unreadable
  | "po" => .object [("k", .unsupported)]
  | _ => .unreadable

def c7decls : List Decl :=
  [.configFile "config", .setting "DurationConfig" .durationType (.duration 1) ""]

def c7args : List (String × String) := [("config", "f1")]

def c7env : String → String := fun _ => ""

def c7fsys : String → ReadResult
  | "f1" => .object [("DurationConfig", .num ((30000000000 : ℕ) : ℚ))]
  | _ => .unreadable

def c7fls : List FlagEntry := [⟨"d", .durationType, .duration 1, .duration 1, false⟩]

def c7entry : FlagEntry := ⟨"d", .durationType, .duration 1, .duration 1, false⟩

def c8decls : List Decl := [.configFile "config", .setting "x" .floatType (.float 0) ""]

def c8args : List (String × String) := [("config", "f1")]

def c8env : String → String := fun _ => ""

def c8fsys : String → ReadResult
  | "f1" => .object [("x", .num (mkRat 1 1024))]
  | _ => .unreadable

def c8fls : List FlagEntry := [⟨"x", .floatType, .float 0, .float 0, false⟩]

def c8entry : FlagEntry := ⟨"x", .floatType, .float 0, .float 0, false⟩

/-- C8 amended-theorem witness scenario: a post-parse registry with one
config path flag (explicitly set to `f1`) and one Float64 setting `x`,
whose file value is the negative number `-1/1024`. -/
def c8fsW : FlagfigSet :=
  ⟨[⟨"config", .stringType, .str "", .str "f1", true⟩,
    ⟨"x", .floatType, .float 0, .float 0, false⟩],
   [("x", .floatType)], [("x", "")], ["config"]⟩

def c8envW : String → String := fun _ => ""

def c8fsysW : String → ReadResult
  | "f1" => .object [("x", .num (mkRat (-1) 1024))]
  | _ => .unreadable

def c8fs2W : FlagfigSet :=
  ⟨[⟨"config", .stringType, .str "", .str "f1", true⟩,
    ⟨"x", .floatType, .float 0, .float (mkRat (-977) 1000000), false⟩],
   [("x", .floatType)], [("x", "")], ["config"]⟩

def c1decls : List Decl :=
  [.configFile "config", .setting "a" .stringType (.str "d") "E"]

def c1args : List (String × String) := [("config", "f1"), ("a", "x")]

def c1env : String → String
  | "E" => "envv"
  | _ => ""

def c1fsys : String → ReadResult
  | "f1" => .object [("a", .str "filev")]
  | _ => .unreadable

def c1fls1 : List FlagEntry :=
  [⟨"config", .stringType, .str "", .str "f1", true⟩,
   ⟨"a", .stringType, .str "d", .str "x", true⟩]

def c1fs2 : FlagfigSet :=
  ⟨c1fls1, [("a", .stringType)], [("a", "E")], ["config"]⟩

def c2fs : FlagfigSet :=
  ⟨[⟨"config", .stringType, .str "", .str "f1", true⟩,
    ⟨"host", .stringType, .str "0", .str "0", false⟩],
   [("host", .stringType)], [("host", "HOST_ENV")], ["config"]⟩

def c2env : String → String
  | "HOST_ENV" => "db.local"
  | _ => ""

def c2fsys : String → ReadResult
  | "f1" => .object [("host", .str "filehost")]
  | _ => .unreadable

def c2fs2 : FlagfigSet :=
  ⟨[⟨"config", .stringType, .str "", .str "f1", true⟩,
    ⟨"host", .stringType, .str "0", .str "db.local", false⟩],
   [("host", .stringType)], [("host", "HOST_ENV")], ["config"]⟩

def c3fs : FlagfigSet :=
  ⟨[⟨"cA", .stringType, .str "", .str "fA", true⟩,
    ⟨"cB", .stringType, .str "", .str "fB", true⟩,
    ⟨"x", .intType, .int 1, .int 1, false⟩],
   [("x", .intType)], [("x", "")], ["cA", "cB"]⟩

def c3env : String → String := fun _ => ""

def c3fsys : String → ReadResult
  | "fA" => .object [("x", .num 5)]
  | "fB" => .object [("x", .num 7)]
  | _ => .unreadable

def c3fs2 : FlagfigSet :=
  ⟨[⟨"cA", .stringType, .str "", .str "fA", true⟩,
    ⟨"cB", .stringType, .str "", .str "fB", true⟩,
    ⟨"x", .intType, .int 1, .int 7, false⟩],
   [("x", .intType)], [("x", "")], ["cA", "cB"]⟩

def c3dfls : List FlagEntry := [⟨"x", .intType, .int 1, .int 1, false⟩]

def c4decls : List Decl :=
  [.configFile "config", .setting "count" .intType (.int 1) ""]

def c4args : List (String × String) := [("config", "f1")]

def c4env : String → String := fun _ => ""

def c4fsys : String → ReadResult := fun _ => .badJSON

def c4fs2 : FlagfigSet :=
  ⟨[⟨"config", .stringType, .str "", .str "f1", true⟩,
    ⟨"count", .intType, .int 1, .int 1, false⟩],
   [("count", .intType)], [("count", "")], ["config"]⟩

def c10fs : FlagfigSet :=
  ⟨[⟨"i", .intType, .int 0, .int 0, false⟩], [("i", .intType)], [("i", "IENV")], []⟩

def c10env : String → String
  | "IENV" => "abc"
  | _ => ""

def c10fsys : String → ReadResult := fun _ => .unreadable

def c10fsB : FlagfigSet :=
  ⟨[⟨"c", .stringType, .str "", .str "f1", true⟩,
    ⟨"i", .intType, .int 0, .int 0, false⟩],
   [("i", .intType)], [("i", "")], ["c"]⟩

def c10envB : String → String := fun _ => ""

def c10fsysB : String → ReadResult
  | "f1" => .object [("i", .str "xyz")]
  | _ => .unreadable

theorem digitChar_isDigit {d : ℕ} (hd : d < 10) :
    (Nat.digitChar d).isDigit = true ∧ digitVal (Nat.digitChar d) = d := by
  interval_cases d <;> exact ⟨by decide, by decide⟩

theorem foldl_digits (l : List Char) (a : ℕ) :
    l.foldl (fun a c => 10 * a + digitVal c) a =
      a * 10 ^ l.length + l.foldl (fun a c => 10 * a + digitVal c) 0 := by
  induction l generalizing a with
  | nil => simp
  | cons c t ih =>
    simp only [List.foldl_cons, List.length_cons]
    rw [ih (10 * a + digitVal c), ih (10 * 0 + digitVal c)]
    ring

theorem natToCharsAux_spec (fuel : ℕ) :
    ∀ n : ℕ, n ≤ fuel → n ≠ 0 →
      natToCharsAux fuel n ≠ [] ∧
      (natToCharsAux fuel n).all Char.isDigit = true ∧
      (natToCharsAux fuel n).foldl (fun a c => 10 * a + digitVal c) 0 = n := by
  induction fuel with
  | zero => intro n hn h0; omega
  | succ fuel ih =>
    intro n hn h0
    have hlt : n % 10 < 10 := Nat.mod_lt _ (by norm_num)
    have hdig := digitChar_isDigit hlt
    rw [natToCharsAux, if_neg h0]
    by_cases hq : n / 10 = 0
    · have : natToCharsAux fuel (n / 10) = [] := by
        cases fuel with
        | zero => rfl
        | succ f => rw [natToCharsAux, if_pos hq]
      rw [this]
      refine ⟨by simp, ?_, ?_⟩
      · simp [List.all_cons, hdig.1]
      · simp only [List.nil_append, List.foldl_cons, List.foldl_nil]
        rw [hdig.2]
        omega
    · have hle : n / 10 ≤ fuel := by
        have := Nat.div_lt_self (Nat.pos_of_ne_zero h0) (by norm_num : 1 < 10)
        omega
      obtain ⟨hne, hall, hval⟩ := ih (n / 10) hle hq
      refine ⟨by simp, ?_, ?_⟩
      · rw [List.all_append, hall]
        simp [List.all_cons, hdig.1]
      · rw [List.foldl_append, hval]
        simp only [List.foldl_cons, List.foldl_nil]
        rw [hdig.2]
        omega

/-- Round trip: parsing the printed decimal digits of `n` gives `n`. -/
theorem parseNatDigits_natToChars (n : ℕ) :
    parseNatDigits (natToChars n) = some n := by
  by_cases h0 : n = 0
  · subst h0; rfl
  · obtain ⟨hne, hall, hval⟩ := natToCharsAux_spec n n le_rfl h0
    rw [natToChars, if_neg h0, parseNatDigits]
    have hne2 : (natToCharsAux n n).isEmpty = false := by
      cases h : natToCharsAux n n with
      | nil => exact absurd h hne
      | cons a t => rfl
    rw [if_pos (by rw [hne2, hall]; rfl), hval]

theorem natToChars_all_digits (n : ℕ) :
    (natToChars n).all Char.isDigit = true := by
  by_cases h0 : n = 0
  · subst h0; rfl
  · rw [natToChars, if_neg h0]
    exact (natToCharsAux_spec n n le_rfl h0).2.1

theorem natToChars_ne_nil (n : ℕ) : natToChars n ≠ [] := by
  by_cases h0 : n = 0
  · subst h0; simp [natToChars]
  · rw [natToChars, if_neg h0]
    exact (natToCharsAux_spec n n le_rfl h0).1

theorem assocGet_upsert_self {α : Type} (l : List (String × α)) (k : String) (v : α) :
    assocGet (assocUpsert l k v) k = some v := by
  induction l with
  | nil => simp [assocUpsert, assocGet]
  | cons p rest ih =>
    obtain ⟨k0, v0⟩ := p
    by_cases h : k0 = k
    · subst h
      simp [assocUpsert, assocGet]
    · simp [assocUpsert, assocGet, h, ih]

theorem findFlag_mem {fls : List FlagEntry} {name : String} {e : FlagEntry}
    (h : findFlag fls name = some e) : e ∈ fls ∧ e.name = name := by
  induction fls with
  | nil => simp [findFlag] at h
  | cons f rest ih =>
    rw [findFlag] at h
    by_cases hf : f.name = name
    · rw [if_pos hf] at h
      cases h
      exact ⟨List.mem_cons_self _ _, hf⟩
    · rw [if_neg hf] at h
      exact ⟨List.mem_cons_of_mem _ (ih h).1, (ih h).2⟩

theorem findFlag_flagUpsert_self (fls : List FlagEntry) (e : FlagEntry) :
    findFlag (flagUpsert fls e) e.name = some e := by
  induction fls with
  | nil => simp [flagUpsert, findFlag]
  | cons f rest ih =>
    rw [flagUpsert]
    by_cases h : f.name = e.name
    · rw [if_pos h, findFlag, if_pos rfl]
    · rw [if_neg h, findFlag, if_neg h, ih]

theorem findFlag_setValue_ne (fls : List FlagEntry) (n : String) (w : Value)
    (name : String) (h : name ≠ n) :
    findFlag (setValue fls n w) name = findFlag fls name := by
  induction fls with
  | nil => rfl
  | cons f rest ih =>
    rw [setValue]
    by_cases hf : f.name = n
    · have hne : f.name ≠ name := by rw [hf]; exact fun hh => h hh.symm
      rw [if_pos hf, findFlag, findFlag]
      simp only [if_neg hne]
    · rw [if_neg hf, findFlag, findFlag]
      by_cases hn : f.name = name
      · rw [if_pos hn, if_pos hn]
      · rw [if_neg hn, if_neg hn, ih]

theorem findFlag_setValue_self {fls : List FlagEntry} {n : String} {e : FlagEntry}
    (w : Value) (h : findFlag fls n = some e) :
    findFlag (setValue fls n w) n = some { e with value := w } := by
  induction fls with
  | nil => simp [findFlag] at h
  | cons f rest ih =>
    rw [findFlag] at h
    rw [setValue]
    by_cases hf : f.name = n
    · rw [if_pos hf] at h
      cases h
      rw [if_pos hf, findFlag]
      simp only [if_pos hf]
    · rw [if_neg hf] at h
      rw [if_neg hf, findFlag, if_neg hf]
      exact ih h

theorem findFlag_setValueVisited_ne (fls : List FlagEntry) (n : String) (w : Value)
    (name : String) (h : name ≠ n) :
    findFlag (setValueVisited fls n w) name = findFlag fls name := by
  induction fls with
  | nil => rfl
  | cons f rest ih =>
    rw [setValueVisited]
    by_cases hf : f.name = n
    · have hne : f.name ≠ name := by rw [hf]; exact fun hh => h hh.symm
      rw [if_pos hf, findFlag, findFlag]
      simp only [if_neg hne]
    · rw [if_neg hf, findFlag, findFlag]
      by_cases hn : f.name = name
      · rw [if_pos hn, if_pos hn]
      · rw [if_neg hn, if_neg hn, ih]

theorem findFlag_flagSetSet_fst_ne (fls : List FlagEntry) (k s : String)
    (name : String) (h : name ≠ k) :
    findFlag (flagSetSet fls k s).1 name = findFlag fls name := by
  unfold flagSetSet
  split
  · rfl
  · split
    · rfl
    · exact findFlag_setValue_ne fls k _ name h

theorem shapeEq_refl (e : FlagEntry) : shapeEq e e := ⟨rfl, rfl, rfl, rfl⟩

theorem shapeEq_trans {e f g : FlagEntry} (h1 : shapeEq e f) (h2 : shapeEq f g) :
    shapeEq e g :=
  ⟨h1.1.trans h2.1, h1.2.1.trans h2.2.1, h1.2.2.1.trans h2.2.2.1, h1.2.2.2.trans h2.2.2.2⟩

theorem shapePres_refl (fls : List FlagEntry) : shapePres fls fls := by
  induction fls with
  | nil => exact List.Forall₂.nil
  | cons f rest ih => exact List.Forall₂.cons (shapeEq_refl f) ih

theorem shapePres_trans {a b c : List FlagEntry} (h1 : shapePres a b) (h2 : shapePres b c) :
    shapePres a c := by
  induction h1 generalizing c with
  | nil => cases h2; exact List.Forall₂.nil
  | cons he ht ih =>
    cases h2 with
    | cons he2 ht2 => exact List.Forall₂.cons (shapeEq_trans he he2) (ih ht2)

theorem shapePres_setValue (fls : List FlagEntry) (n : String) (w : Value) :
    shapePres fls (setValue fls n w) := by
  induction fls with
  | nil => exact List.Forall₂.nil
  | cons f rest ih =>
    rw [setValue]
    by_cases hf : f.name = n
    · rw [if_pos hf]
      exact List.Forall₂.cons ⟨rfl, rfl, rfl, rfl⟩ (shapePres_refl rest)
    · rw [if_neg hf]
      exact List.Forall₂.cons (shapeEq_refl f) ih

theorem shapePres_flagSetSet (fls : List FlagEntry) (k s : String) :
    shapePres fls (flagSetSet fls k s).1 := by
  unfold flagSetSet
  split
  · exact shapePres_refl fls
  · split
    · exact shapePres_refl fls
    · exact shapePres_setValue fls k _

theorem findFlag_shape {fls fls2 : List FlagEntry} (h : shapePres fls fls2)
    {name : String} {e : FlagEntry} (hf : findFlag fls name = some e) :
    ∃ e2, findFlag fls2 name = some e2 ∧ shapeEq e e2 := by
  induction h with
  | nil => simp [findFlag] at hf
  | cons he ht ih =>
    rename_i a b as bs
    rw [findFlag] at hf
    by_cases hn : a.name = name
    · rw [if_pos hn] at hf
      cases hf
      exact ⟨b, by rw [findFlag, if_pos (he.1.symm.trans hn)], he⟩
    · rw [if_neg hn] at hf
      obtain ⟨e2, h1, h2⟩ := ih hf
      refine ⟨e2, ?_, h2⟩
      rw [findFlag, if_neg (fun hh => hn (he.1.trans hh)), h1]

theorem findFlag_none_shape {fls fls2 : List FlagEntry} (h : shapePres fls fls2)
    {name : String} (hf : findFlag fls name = none) : findFlag fls2 name = none := by
  induction h with
  | nil => rfl
  | cons he ht ih =>
    rename_i a b as bs
    rw [findFlag] at hf
    by_cases hn : a.name = name
    · rw [if_pos hn] at hf
      cases hf
    · rw [if_neg hn] at hf
      rw [findFlag, if_neg (fun hh => hn (he.1.trans hh))]
      exact ih hf

theorem applyFileValue_ok_ne {ft : List (String × Kind)} {fls fls2 : List FlagEntry}
    {k : String} {v : JSONValue} (h : applyFileValue ft fls k v = .ok fls2)
    (name : String) (hn : name ≠ k) : findFlag fls2 name = findFlag fls name := by
  cases v with
  | bool b => cases h; exact findFlag_flagSetSet_fst_ne fls k _ name hn
  | str s => cases h; exact findFlag_flagSetSet_fst_ne fls k s name hn
  | num q =>
    rw [applyFileValue] at h
    rcases hk : (assocGet ft k).getD .intType <;> rw [hk] at h <;> cases h <;>
      first
        | rfl
        | exact findFlag_flagSetSet_fst_ne fls k _ name hn
  | unsupported => cases h

theorem applyFileValue_ok_shape {ft : List (String × Kind)} {fls fls2 : List FlagEntry}
    {k : String} {v : JSONValue} (h : applyFileValue ft fls k v = .ok fls2) :
    shapePres fls fls2 := by
  cases v with
  | bool b => cases h; exact shapePres_flagSetSet fls k _
  | str s => cases h; exact shapePres_flagSetSet fls k s
  | num q =>
    rw [applyFileValue] at h
    rcases hk : (assocGet ft k).getD .intType <;> rw [hk] at h <;> cases h <;>
      first
        | exact shapePres_refl _
        | exact shapePres_flagSetSet fls k _
  | unsupported => cases h

theorem processEntries_ok_shape {ft : List (String × Kind)} {uv : List String}
    {ents : List (String × JSONValue)} :
    ∀ {fls fls2 : List FlagEntry}, processEntries ft uv fls ents = .ok fls2 →
      shapePres fls fls2 := by
  induction ents with
  | nil => intro fls fls2 h; cases h; exact shapePres_refl _
  | cons kv rest ih =>
    intro fls fls2 h
    obtain ⟨key, v⟩ := kv
    rw [processEntries] at h
    by_cases hm : key ∈ uv
    · rw [if_pos hm] at h
      cases ha : applyFileValue ft fls key v with
      | error f => rw [ha] at h; cases h
      | ok fls3 =>
        rw [ha] at h
        exact shapePres_trans (applyFileValue_ok_shape ha) (ih h)
    · rw [if_neg hm] at h
      exact ih h

theorem processEntries_preserve {ft : List (String × Kind)} {uv : List String}
    {ents : List (String × JSONValue)} {name : String}
    (hk : ∀ kv ∈ ents, kv.1 ∈ uv → kv.1 ≠ name) :
    ∀ {fls fls2 : List FlagEntry}, processEntries ft uv fls ents = .ok fls2 →
      findFlag fls2 name = findFlag fls name := by
  induction ents with
  | nil => intro fls fls2 h; cases h; rfl
  | cons kv rest ih =>
    intro fls fls2 h
    obtain ⟨key, v⟩ := kv
    rw [processEntries] at h
    by_cases hm : key ∈ uv
    · rw [if_pos hm] at h
      cases ha : applyFileValue ft fls key v with
      | error f => rw [ha] at h; cases h
      | ok fls3 =>
        rw [ha] at h
        have hne : name ≠ key :=
          fun hh => (hk (key, v) (List.mem_cons_self _ _) hm) hh.symm
        rw [ih (fun kv hkv => hk kv (List.mem_cons_of_mem _ hkv)) h,
          applyFileValue_ok_ne ha name hne]
    · rw [if_neg hm] at h
      exact ih (fun kv hkv => hk kv (List.mem_cons_of_mem _ hkv)) h

theorem readFilesAux_ok_shape {fsys : String → ReadResult} {ft : List (String × Kind)}
    {uv : List String} {cfs : List String} :
    ∀ {fls fls2 : List FlagEntry} {logs logs2 : List LogEntry},
      readFilesAux fsys ft uv cfs fls logs = .ok (fls2, logs2) → shapePres fls fls2 := by
  induction cfs with
  | nil => intro fls fls2 logs logs2 h; cases h; exact shapePres_refl _
  | cons cf rest ih =>
    intro fls fls2 logs logs2 h
    rw [readFilesAux] at h
    by_cases hp : pathValue fls cf = ""
    · rw [if_pos hp] at h
      exact ih h
    · rw [if_neg hp] at h
      cases hr : fsys (pathValue fls cf) with
      | unreadable => simp only [hr] at h; cases h
      | badJSON => simp only [hr] at h; exact ih h
      | object ents =>
        simp only [hr] at h
        cases hpe : processEntries ft uv fls ents with
        | error f => simp only [hpe] at h; cases h
        | ok fls3 =>
          simp only [hpe] at h
          exact shapePres_trans (processEntries_ok_shape hpe) (ih h)

theorem readFilesAux_preserve {fsys : String → ReadResult} {ft : List (String × Kind)}
    {uv : List String} {name : String} (hn : name ∉ uv) {cfs : List String} :
    ∀ {fls fls2 : List FlagEntry} {logs logs2 : List LogEntry},
      readFilesAux fsys ft uv cfs fls logs = .ok (fls2, logs2) →
      findFlag fls2 name = findFlag fls name := by
  induction cfs with
  | nil => intro fls fls2 logs logs2 h; cases h; rfl
  | cons cf rest ih =>
    intro fls fls2 logs logs2 h
    rw [readFilesAux] at h
    by_cases hp : pathValue fls cf = ""
    · rw [if_pos hp] at h
      exact ih h
    · rw [if_neg hp] at h
      cases hr : fsys (pathValue fls cf) with
      | unreadable => simp only [hr] at h; cases h
      | badJSON => simp only [hr] at h; exact ih h
      | object ents =>
        simp only [hr] at h
        cases hpe : processEntries ft uv fls ents with
        | error f => simp only [hpe] at h; cases h
        | ok fls3 =>
          simp only [hpe] at h
          rw [ih h,
            processEntries_preserve (fun kv _ hm hh => absurd hm (by rw [hh]; exact hn)) hpe]

theorem readFilesAux_preserve_nokey {fsys : String → ReadResult}
    {ft : List (String × Kind)} {uv : List String} {name : String}
    (hk : ∀ p ents, fsys p = .object ents → ∀ kv ∈ ents, kv.1 ≠ name)
    {cfs : List String} :
    ∀ {fls fls2 : List FlagEntry} {logs logs2 : List LogEntry},
      readFilesAux fsys ft uv cfs fls logs = .ok (fls2, logs2) →
      findFlag fls2 name = findFlag fls name := by
  induction cfs with
  | nil => intro fls fls2 logs logs2 h; cases h; rfl
  | cons cf rest ih =>
    intro fls fls2 logs logs2 h
    rw [readFilesAux] at h
    by_cases hp : pathValue fls cf = ""
    · rw [if_pos hp] at h
      exact ih h
    · rw [if_neg hp] at h
      cases hr : fsys (pathValue fls cf) with
      | unreadable => simp only [hr] at h; cases h
      | badJSON => simp only [hr] at h; exact ih h
      | object ents =>
        simp only [hr] at h
        cases hpe : processEntries ft uv fls ents with
        | error f => simp only [hpe] at h; cases h
        | ok fls3 =>
          simp only [hpe] at h
          rw [ih h,
            processEntries_preserve (fun kv hkv _ => hk _ ents hr kv hkv) hpe]

theorem envLoop_shape (env : String → String) (envNames : List (String × String)) :
    ∀ (names : List String) (fls : List FlagEntry) (acc : Option SetErr),
      shapePres fls (envLoop env envNames names fls acc).1 := by
  intro names
  induction names with
  | nil => intro fls acc; exact shapePres_refl _
  | cons n rest ih =>
    intro fls acc
    rw [envLoop]
    cases he : assocGet envNames n with
    | none => exact ih fls acc
    | some en =>
      simp only [he]
      by_cases hv : getenv env en = ""
      · rw [if_pos hv]
        exact ih fls acc
      · rw [if_neg hv]
        exact shapePres_trans (shapePres_flagSetSet fls n _) (ih _ _)

theorem envLoop_preserve_not_mem (env : String → String)
    (envNames : List (String × String)) {name : String} :
    ∀ (names : List String), name ∉ names → ∀ (fls : List FlagEntry) (acc : Option SetErr),
      findFlag (envLoop env envNames names fls acc).1 name = findFlag fls name := by
  intro names
  induction names with
  | nil => intro _ fls acc; rfl
  | cons n rest ih =>
    intro hn fls acc
    have hne : name ≠ n := fun hh => hn (hh ▸ List.mem_cons_self _ _)
    have hrest : name ∉ rest := fun hh => hn (List.mem_cons_of_mem _ hh)
    rw [envLoop]
    cases he : assocGet envNames n with
    | none => exact ih hrest fls acc
    | some en =>
      simp only [he]
      by_cases hv : getenv env en = ""
      · rw [if_pos hv]
        exact ih hrest fls acc
      · rw [if_neg hv]
        rw [ih hrest _ _, findFlag_flagSetSet_fst_ne fls n _ name hne]

theorem envLoop_preserve_no_trigger (env : String → String)
    (envNames : List (String × String)) {name : String}
    (ht : ∀ en, assocGet envNames name = some en → getenv env en = "") :
    ∀ (names : List String) (fls : List FlagEntry) (acc : Option SetErr),
      findFlag (envLoop env envNames names fls acc).1 name = findFlag fls name := by
  intro names
  induction names with
  | nil => intro fls acc; rfl
  | cons n rest ih =>
    intro fls acc
    rw [envLoop]
    by_cases hn : n = name
    · subst hn
      cases he : assocGet envNames n with
      | none => exact ih fls acc
      | some en =>
        simp only [he]
        rw [if_pos (ht en he)]
        exact ih fls acc
    · cases he : assocGet envNames n with
      | none => exact ih fls acc
      | some en =>
        simp only [he]
        by_cases hv : getenv env en = ""
        · rw [if_pos hv]
          exact ih fls acc
        · rw [if_neg hv]
          rw [ih _ _, findFlag_flagSetSet_fst_ne fls n _ name (fun hh => hn hh.symm)]

theorem flagSetSet_eq_of {fls : List FlagEntry} {name s : String} {e : FlagEntry}
    {w : Value} (hf : findFlag fls name = some e) (hp : parseAs e.kind s = some w) :
    flagSetSet fls name s = (setValue fls name w, none) := by
  simp only [flagSetSet, hf, hp]

theorem flagSetSet_eq_of_fail {fls : List FlagEntry} {name s : String} {e : FlagEntry}
    (hf : findFlag fls name = some e) (hp : parseAs e.kind s = none) :
    flagSetSet fls name s = (fls, some (.parseFailure name s)) := by
  simp only [flagSetSet, hf, hp]

theorem envLoop_no_trigger_all (env : String → String) (envNames : List (String × String)) :
    ∀ names : List String, names.filter (envTrig envNames env) = [] →
      ∀ (fls : List FlagEntry) (acc : Option SetErr),
        envLoop env envNames names fls acc = (fls, acc) := by
  intro names
  induction names with
  | nil => intro _ fls acc; rfl
  | cons n rest ih =>
    intro hfil fls acc
    cases ht : envTrig envNames env n with
    | true =>
      rw [List.filter_cons, if_pos ht] at hfil
      cases hfil
    | false =>
      simp only [List.filter_cons, ht] at hfil
      rw [envLoop]
      cases he : assocGet envNames n with
      | none => exact ih hfil fls acc
      | some en =>
        simp only [he]
        have hv : getenv env en = "" := by
          unfold envTrig at ht
          rw [he] at ht
          simpa using ht
        rw [if_pos hv]
        exact ih hfil fls acc

theorem envLoop_err_single (env : String → String) (envNames : List (String × String))
    {name en : String} (he : assocGet envNames name = some en)
    (hv : getenv env en ≠ "") :
    ∀ names : List String, names.filter (envTrig envNames env) = [name] →
      ∀ (fls : List FlagEntry) (acc : Option SetErr) (e : FlagEntry),
        findFlag fls name = some e → parseAs e.kind (getenv env en) = none →
        (envLoop env envNames names fls acc).2 =
          some (.parseFailure name (getenv env en)) := by
  intro names
  induction names with
  | nil => intro h; cases h
  | cons n rest ih =>
    intro hfil fls acc e hf hp
    cases ht : envTrig envNames env n with
    | false =>
      simp only [List.filter_cons, ht] at hfil
      rw [envLoop]
      cases he2 : assocGet envNames n with
      | none => exact ih hfil fls acc e hf hp
      | some en2 =>
        simp only [he2]
        have hv2 : getenv env en2 = "" := by
          unfold envTrig at ht
          rw [he2] at ht
          simpa using ht
        rw [if_pos hv2]
        exact ih hfil fls acc e hf hp
    | true =>
      rw [List.filter_cons, if_pos ht] at hfil
      injection hfil with hn hrest
      subst hn
      rw [envLoop]
      simp only [he]
      rw [if_neg hv, flagSetSet_eq_of_fail hf hp]
      rw [envLoop_no_trigger_all env envNames rest hrest]

theorem envLoop_mem_set (env : String → String) (envNames : List (String × String))
    {name en : String} {e : FlagEntry} {w : Value}
    (he : assocGet envNames name = some en) (hv : getenv env en ≠ "") :
    ∀ names : List String, names.Nodup → name ∈ names →
      ∀ (fls : List FlagEntry) (acc : Option SetErr),
        findFlag fls name = some e → parseAs e.kind (getenv env en) = some w →
        findFlag (envLoop env envNames names fls acc).1 name =
          some { e with value := w } := by
  intro names
  induction names with
  | nil => intro _ h; cases h
  | cons n rest ih =>
    intro hnd hmem fls acc hf hp
    rw [List.nodup_cons] at hnd
    by_cases hn : n = name
    · subst hn
      rw [envLoop]
      simp only [he]
      rw [if_neg hv, flagSetSet_eq_of hf hp]
      rw [envLoop_preserve_not_mem env envNames rest hnd.1 _ _]
      exact findFlag_setValue_self w hf
    · have hmem2 : name ∈ rest := by
        cases hmem with
        | head => exact absurd rfl hn
        | tail _ hm => exact hm
      rw [envLoop]
      cases he2 : assocGet envNames n with
      | none => exact ih hnd.2 hmem2 fls acc hf hp
      | some en2 =>
        simp only [he2]
        by_cases hv2 : getenv env en2 = ""
        · rw [if_pos hv2]
          exact ih hnd.2 hmem2 fls acc hf hp
        · rw [if_neg hv2]
          refine ih hnd.2 hmem2 _ _ ?_ hp
          rw [findFlag_flagSetSet_fst_ne fls n _ name (fun hh => hn hh.symm)]
          exact hf

theorem mem_unvisitedNames {fls : List FlagEntry} {name : String} {e : FlagEntry}
    (hf : findFlag fls name = some e) (hv : e.visited = false) :
    name ∈ unvisitedNames fls := by
  obtain ⟨hmem, hname⟩ := findFlag_mem hf
  unfold unvisitedNames
  exact List.mem_map.mpr ⟨e, List.mem_filter.mpr ⟨hmem, by rw [hv]; rfl⟩, hname⟩

theorem eq_of_name_eq {fls : List FlagEntry} (hnd : (fls.map FlagEntry.name).Nodup)
    {e f : FlagEntry} (he : e ∈ fls) (hf : f ∈ fls) (h : e.name = f.name) : e = f := by
  induction fls with
  | nil => cases he
  | cons g rest ih =>
    rw [List.map_cons, List.nodup_cons] at hnd
    cases he with
    | head =>
      cases hf with
      | head => rfl
      | tail _ hf2 =>
        have hmm : f.name ∈ rest.map FlagEntry.name := List.mem_map_of_mem _ hf2
        rw [← h] at hmm
        exact absurd hmm hnd.1
    | tail _ he2 =>
      cases hf with
      | head =>
        have hmm : e.name ∈ rest.map FlagEntry.name := List.mem_map_of_mem _ he2
        rw [h] at hmm
        exact absurd hmm hnd.1
      | tail _ hf2 => exact ih hnd.2 he2 hf2

theorem not_mem_unvisitedNames {fls : List FlagEntry}
    (hnd : (fls.map FlagEntry.name).Nodup) {name : String} {e : FlagEntry}
    (hf : findFlag fls name = some e) (hv : e.visited = true) :
    name ∉ unvisitedNames fls := by
  intro hmem
  unfold unvisitedNames at hmem
  obtain ⟨f, hfmem, hfname⟩ := List.mem_map.mp hmem
  have hffil := List.mem_filter.mp hfmem
  have hfe : f = e :=
    eq_of_name_eq hnd hffil.1 (findFlag_mem hf).1 (by rw [hfname, (findFlag_mem hf).2])
  have hvf : (!f.visited) = true := hffil.2
  rw [hfe, hv] at hvf
  cases hvf

theorem nodup_unvisitedNames {fls : List FlagEntry}
    (hnd : (fls.map FlagEntry.name).Nodup) : (unvisitedNames fls).Nodup := by
  unfold unvisitedNames
  have hsub : List.Sublist ((fls.filter (fun e => !e.visited)).map FlagEntry.name)
      (fls.map FlagEntry.name) :=
    List.Sublist.map _ (List.filter_sublist fls)
  exact List.Nodup.sublist hsub hnd

theorem cmdlineSet_ok_ne {fls fls2 : List FlagEntry} {n v : String}
    (h : cmdlineSet fls n v = .ok fls2) {name : String} (hn : name ≠ n) :
    findFlag fls2 name = findFlag fls name := by
  unfold cmdlineSet at h
  cases hf : findFlag fls n with
  | none => simp only [hf] at h; cases h
  | some e =>
    simp only [hf] at h
    cases hp : parseAs e.kind v with
    | none => simp only [hp] at h; cases h
    | some w =>
      simp only [hp] at h
      cases h
      exact findFlag_setValueVisited_ne fls n w name hn

theorem applyCmdline_preserve {name : String} :
    ∀ {args : List (String × String)} {fls fls2 : List FlagEntry},
      applyCmdline fls args = .ok fls2 → (∀ p ∈ args, p.1 ≠ name) →
      findFlag fls2 name = findFlag fls name := by
  intro args
  induction args with
  | nil => intro fls fls2 h _; cases h; rfl
  | cons p rest ih =>
    intro fls fls2 h hp
    obtain ⟨n, v⟩ := p
    rw [applyCmdline] at h
    cases hc : cmdlineSet fls n v with
    | error e => simp only [hc] at h; cases h
    | ok fls3 =>
      simp only [hc] at h
      have hne : name ≠ n := fun hh => hp (n, v) (List.mem_cons_self _ _) hh.symm
      rw [ih h (fun q hq => hp q (List.mem_cons_of_mem _ hq)), cmdlineSet_ok_ne hc hne]

theorem collate_ok_elim {fs : FlagfigSet} {env : String → String}
    {fsys : String → ReadResult} {fs2 : FlagfigSet} {logs : List LogEntry}
    {err : Option SetErr} (h : fs.Collate env fsys = .ok (fs2, logs, err)) :
    ∃ fls2, readFilesAux fsys fs.flagTypes (unvisitedNames fs.flags)
        fs.configFilePaths fs.flags [] = .ok (fls2, logs) ∧
      fs2.flags = (envLoop env fs.envNames (unvisitedNames fs.flags) fls2 none).1 ∧
      err = (envLoop env fs.envNames (unvisitedNames fs.flags) fls2 none).2 := by
  unfold FlagfigSet.Collate at h
  cases hr : readFilesAux fsys fs.flagTypes (unvisitedNames fs.flags)
      fs.configFilePaths fs.flags [] with
  | error f => simp only [hr] at h; cases h
  | ok pr =>
    obtain ⟨fls2, logs2⟩ := pr
    simp only [hr] at h
    cases h
    exact ⟨fls2, rfl, rfl, rfl⟩

theorem assocGet_upsert_ne {α : Type} (l : List (String × α)) (k : String) (v : α)
    (key : String) (h : key ≠ k) : assocGet (assocUpsert l k v) key = assocGet l key := by
  induction l with
  | nil =>
    simp only [assocUpsert, assocGet]
    rw [if_neg (fun hh => h hh.symm)]
  | cons p rest ih =>
    obtain ⟨k0, v0⟩ := p
    by_cases h0 : k0 = k
    · subst h0
      rw [assocUpsert, if_pos rfl, assocGet, assocGet,
        if_neg (fun hh => h hh.symm), if_neg (fun hh => h hh.symm)]
    · rw [assocUpsert, if_neg h0, assocGet, assocGet]
      by_cases hk : k0 = key
      · rw [if_pos hk, if_pos hk]
      · rw [if_neg hk, if_neg hk, ih]

theorem findFlag_flagUpsert_ne (fls : List FlagEntry) (e : FlagEntry) (name : String)
    (h : name ≠ e.name) : findFlag (flagUpsert fls e) name = findFlag fls name := by
  induction fls with
  | nil =>
    simp only [flagUpsert, findFlag]
    rw [if_neg (fun hh => h hh.symm)]
  | cons f rest ih =>
    rw [flagUpsert]
    by_cases h0 : f.name = e.name
    · rw [if_pos h0, findFlag, findFlag, if_neg (fun hh => h hh.symm),
        if_neg (fun hh => h (h0 ▸ hh).symm)]
    · rw [if_neg h0, findFlag, findFlag]
      by_cases hk : f.name = name
      · rw [if_pos hk, if_pos hk]
      · rw [if_neg hk, if_neg hk, ih]

theorem mem_names_flagUpsert {fls : List FlagEntry} {e : FlagEntry} {x : String}
    (h : x ∈ (flagUpsert fls e).map FlagEntry.name) :
    x = e.name ∨ x ∈ fls.map FlagEntry.name := by
  induction fls with
  | nil =>
    simp [flagUpsert] at h
    exact Or.inl h
  | cons f rest ih =>
    rw [flagUpsert] at h
    by_cases h0 : f.name = e.name
    · rw [if_pos h0, List.map_cons] at h
      cases h with
      | head => exact Or.inl rfl
      | tail _ hm => exact Or.inr (List.mem_cons_of_mem _ hm)
    · rw [if_neg h0, List.map_cons] at h
      cases h with
      | head => exact Or.inr (List.mem_cons_self _ _)
      | tail _ hm =>
        cases ih hm with
        | inl hh => exact Or.inl hh
        | inr hh => exact Or.inr (List.mem_cons_of_mem _ hh)

theorem flagUpsert_names_nodup {fls : List FlagEntry} {e : FlagEntry}
    (h : (fls.map FlagEntry.name).Nodup) :
    ((flagUpsert fls e).map FlagEntry.name).Nodup := by
  induction fls with
  | nil => simp [flagUpsert]
  | cons f rest ih =>
    rw [List.map_cons, List.nodup_cons] at h
    rw [flagUpsert]
    by_cases h0 : f.name = e.name
    · rw [if_pos h0, List.map_cons, List.nodup_cons]
      exact ⟨h0 ▸ h.1, h.2⟩
    · rw [if_neg h0, List.map_cons, List.nodup_cons]
      refine ⟨fun hm => ?_, ih h.2⟩
      cases mem_names_flagUpsert hm with
      | inl hh => exact h0 hh
      | inr hh => exact h.1 hh

theorem registerFold_nodup :
    ∀ (decls : List Decl) (fs : FlagfigSet), (fs.flags.map FlagEntry.name).Nodup →
      ((decls.foldl applyDecl fs).flags.map FlagEntry.name).Nodup := by
  intro decls
  induction decls with
  | nil => intro fs h; exact h
  | cons d rest ih =>
    intro fs h
    rw [List.foldl_cons]
    refine ih (applyDecl fs d) ?_
    cases d with
    | setting name k dv en => exact flagUpsert_names_nodup h
    | configFile name => exact flagUpsert_names_nodup h

theorem registerDecls_nodup (decls : List Decl) :
    ((registerDecls decls).flags.map FlagEntry.name).Nodup :=
  registerFold_nodup decls NewFlagfigSet List.nodup_nil

theorem registerFold_preserve {name : String} :
    ∀ (decls : List Decl) (fs : FlagfigSet), (∀ d ∈ decls, declName d ≠ name) →
      findFlag (decls.foldl applyDecl fs).flags name = findFlag fs.flags name ∧
      assocGet (decls.foldl applyDecl fs).envNames name = assocGet fs.envNames name ∧
      assocGet (decls.foldl applyDecl fs).flagTypes name = assocGet fs.flagTypes name := by
  intro decls
  induction decls with
  | nil => intro fs _; exact ⟨rfl, rfl, rfl⟩
  | cons d rest ih =>
    intro fs h
    rw [List.foldl_cons]
    have hd : declName d ≠ name := h d (List.mem_cons_self _ _)
    have hrest := ih (applyDecl fs d) (fun d2 hd2 => h d2 (List.mem_cons_of_mem _ hd2))
    refine ⟨hrest.1.trans ?_, hrest.2.1.trans ?_, hrest.2.2.trans ?_⟩ <;>
      cases d with
        | setting n k dv en =>
          first
            | exact findFlag_flagUpsert_ne _ _ _ (fun hh => hd hh.symm)
            | exact assocGet_upsert_ne _ _ _ _ (fun hh => hd hh.symm)
        | configFile n =>
          first
            | exact findFlag_flagUpsert_ne _ _ _ (fun hh => hd hh.symm)
            | rfl

theorem registerFold_find {name : String} {k : Kind} {d : Value} {en : String} :
    ∀ (decls : List Decl) (fs : FlagfigSet), Decl.setting name k d en ∈ decls →
      (decls.map declName).Nodup →
      findFlag (decls.foldl applyDecl fs).flags name = some ⟨name, k, d, d, false⟩ ∧
      assocGet (decls.foldl applyDecl fs).envNames name = some en ∧
      assocGet (decls.foldl applyDecl fs).flagTypes name = some k := by
  intro decls
  induction decls with
  | nil => intro fs h; cases h
  | cons d0 rest ih =>
    intro fs hmem hnd
    rw [List.map_cons, List.nodup_cons] at hnd
    rw [List.foldl_cons]
    cases hmem with
    | head =>
      have hrest : ∀ d2 ∈ rest, declName d2 ≠ name := by
        intro d2 hd2 hh
        have hmm : declName d2 ∈ rest.map declName := List.mem_map_of_mem declName hd2
        rw [hh] at hmm
        exact hnd.1 hmm
      obtain ⟨h1, h2, h3⟩ := registerFold_preserve rest (applyDecl fs (.setting name k d en)) hrest
      refine ⟨h1.trans ?_, h2.trans ?_, h3.trans ?_⟩
      · exact findFlag_flagUpsert_self fs.flags ⟨name, k, d, d, false⟩
      · exact assocGet_upsert_self fs.envNames name en
      · exact assocGet_upsert_self fs.flagTypes name k
    | tail _ hm => exact ih (applyDecl fs d0) hm hnd.2

theorem parse_ok_elim {fs : FlagfigSet} {args : List (String × String)}
    {env : String → String} {fsys : String → ReadResult} {fs2 : FlagfigSet}
    {logs : List LogEntry} {err : Option SetErr}
    (h : fs.Parse args env fsys = .ok (fs2, logs, err)) :
    ∃ fls1, applyCmdline fs.flags args = .ok fls1 ∧
      FlagfigSet.Collate { fs with flags := fls1 } env fsys = .ok (fs2, logs, err) := by
  unfold FlagfigSet.Parse at h
  cases hc : applyCmdline fs.flags args with
  | error e => simp only [hc] at h; cases h
  | ok fls1 =>
    simp only [hc] at h
    cases hcol : FlagfigSet.Collate { fs with flags := fls1 } env fsys with
    | error f => simp only [hcol] at h; cases h
    | ok out =>
      simp only [hcol] at h
      cases h
      exact ⟨fls1, rfl, hcol⟩

theorem isDigit_ne {c d : Char} (h : c.isDigit = true) (hd : d.isDigit = false) :
    c ≠ d := by
  intro hh
  rw [hh] at h
  rw [h] at hd
  cases hd

theorem isDigit_not_space {c : Char} (h : c.isDigit = true) : (c == ' ') = false := by
  cases hb : c == ' ' with
  | false => rfl
  | true =>
    have hc : c = ' ' := eq_of_beq hb
    rw [hc] at h
    exact absurd h (by decide)

theorem natToChars_head_digit (n : ℕ) :
    ∃ c t, natToChars n = c :: t ∧ c.isDigit = true := by
  cases h : natToChars n with
  | nil => exact absurd h (natToChars_ne_nil n)
  | cons c t =>
    have hall := natToChars_all_digits n
    rw [h, List.all_cons, Bool.and_eq_true] at hall
    exact ⟨c, t, rfl, hall.1⟩

theorem takeWhile_append_all {p : Char → Bool} :
    ∀ l1 l2 : List Char, l1.all p = true → (∀ c, l2.head? = some c → p c = false) →
      (l1 ++ l2).takeWhile p = l1 ∧ (l1 ++ l2).dropWhile p = l2 := by
  intro l1
  induction l1 with
  | nil =>
    intro l2 _ h2
    cases l2 with
    | nil => exact ⟨rfl, rfl⟩
    | cons c t =>
      rw [List.nil_append]
      constructor
      · rw [List.takeWhile_cons, h2 c rfl]
        rfl
      · rw [List.dropWhile_cons, h2 c rfl]
        rfl
  | cons a t ih =>
    intro l2 h1 h2
    rw [List.all_cons, Bool.and_eq_true] at h1
    have hrec := ih l2 h1.2 h2
    constructor
    · rw [List.cons_append, List.takeWhile_cons, h1.1, if_pos rfl, hrec.1]
    · rw [List.cons_append, List.dropWhile_cons, h1.1, if_pos rfl]
      exact hrec.2

theorem natToChars_foldl (n : ℕ) :
    (natToChars n).foldl (fun a c => 10 * a + digitVal c) 0 = n := by
  by_cases h0 : n = 0
  · subst h0; decide
  · rw [natToChars, if_neg h0]
    exact (natToCharsAux_spec n n le_rfl h0).2.2

theorem foldl_replicate_zero (m : ℕ) :
    (List.replicate m '0').foldl (fun a c => 10 * a + digitVal c) 0 = 0 := by
  induction m with
  | zero => rfl
  | succ m ih =>
    rw [List.replicate_succ, List.foldl_cons]
    have h1 : 10 * 0 + digitVal '0' = 0 := by decide
    rw [h1, ih]

theorem replicate_zero_all_digits (m : ℕ) :
    (List.replicate m '0').all Char.isDigit = true := by
  rw [List.all_eq_true]
  intro c hc
  rw [List.eq_of_mem_replicate hc]
  decide

theorem parseNatDigits_padZero (k b : ℕ) :
    parseNatDigits (padZeroTo k (natToChars b)) = some b := by
  unfold padZeroTo parseNatDigits
  have hne : (List.replicate (k - (natToChars b).length) '0' ++ natToChars b).isEmpty
      = false := by
    cases h : List.replicate (k - (natToChars b).length) '0' ++ natToChars b with
    | nil => exact absurd (List.append_eq_nil.mp h).2 (natToChars_ne_nil b)
    | cons c t => rfl
  have hall : (List.replicate (k - (natToChars b).length) '0' ++ natToChars b).all
      Char.isDigit = true := by
    rw [List.all_append, replicate_zero_all_digits, natToChars_all_digits]
    rfl
  rw [if_pos (by rw [hne, hall]; rfl)]
  rw [List.foldl_append, foldl_replicate_zero, natToChars_foldl]

theorem natToCharsAux_length_le (fuel : ℕ) :
    ∀ n k : ℕ, n < 10 ^ k → (natToCharsAux fuel n).length ≤ k := by
  induction fuel with
  | zero => intro n k _; exact Nat.zero_le k
  | succ fuel ih =>
    intro n k hn
    rw [natToCharsAux]
    by_cases h0 : n = 0
    · rw [if_pos h0]; exact Nat.zero_le k
    · rw [if_neg h0, List.length_append, List.length_cons, List.length_nil]
      cases k with
      | zero =>
        rw [pow_zero] at hn
        omega
      | succ k2 =>
        have hlt : n / 10 < 10 ^ k2 := by
          rw [Nat.div_lt_iff_lt_mul (by norm_num : (0:ℕ) < 10)]
          have hpow : (10:ℕ) ^ (k2 + 1) = 10 ^ k2 * 10 := by ring
          omega
        have := ih (n / 10) k2 hlt
        omega

theorem natToChars_length_le {n k : ℕ} (h : n < 10 ^ k) (hk : 1 ≤ k) :
    (natToChars n).length ≤ k := by
  by_cases h0 : n = 0
  · subst h0
    simpa [natToChars] using hk
  · rw [natToChars, if_neg h0]
    exact natToCharsAux_length_le n n k h

theorem padZeroTo_length {k : ℕ} {l : List Char} (h : l.length ≤ k) :
    (padZeroTo k l).length = k := by
  unfold padZeroTo
  rw [List.length_append, List.length_replicate]
  omega

theorem dropWhile_replicate_space (m : ℕ) (l : List Char) :
    (List.replicate m ' ' ++ l).dropWhile (fun c => c == ' ') =
      l.dropWhile (fun c => c == ' ') := by
  induction m with
  | zero => rfl
  | succ m ih =>
    rw [List.replicate_succ, List.cons_append, List.dropWhile_cons]
    simp only [ih]
    rfl

theorem dropWhile_eq_self_of_head {l : List Char}
    (h : ∀ c ∈ l, (c == ' ') = false) : l.dropWhile (fun c => c == ' ') = l := by
  cases l with
  | nil => rfl
  | cons a t =>
    rw [List.dropWhile_cons, h a (List.mem_cons_self a t)]
    rfl

theorem trimSpace_spaces_append (m : ℕ) {l : List Char}
    (h : ∀ c ∈ l, (c == ' ') = false) :
    trimSpaceChars (List.replicate m ' ' ++ l) = l := by
  unfold trimSpaceChars
  rw [dropWhile_replicate_space, dropWhile_eq_self_of_head h,
    dropWhile_eq_self_of_head (fun c hc => h c (List.mem_reverse.mp hc)),
    List.reverse_reverse]

theorem rheDiv_one (n : ℕ) : rheDiv n 1 = n := by
  unfold rheDiv
  simp [Nat.mod_one, Nat.div_one]

theorem fmtF0_natCast (n : ℕ) : fmtF0 ((n : ℕ) : ℚ) = natToChars n := by
  unfold fmtF0
  rw [Rat.num_natCast, Rat.den_natCast]
  rw [if_neg (Int.not_lt.mpr (Int.natCast_nonneg n))]
  rw [Int.natAbs_ofNat, rheDiv_one, List.nil_append]

theorem durationFileChars_natCast (n : ℕ) :
    durationFileChars ((n : ℕ) : ℚ) = natToChars n ++ ['n', 's'] := by
  unfold durationFileChars padSpacesTo
  rw [fmtF0_natCast, List.append_assoc]
  apply trimSpace_spaces_append
  intro c hc
  cases List.mem_append.mp hc with
  | inl h1 =>
    have hall := natToChars_all_digits n
    rw [List.all_eq_true] at hall
    exact isDigit_not_space (hall c h1)
  | inr h2 =>
    cases h2 with
    | head => decide
    | tail _ h3 =>
      cases h3 with
      | head => decide
      | tail _ h4 => cases h4

theorem parseDuration_digits_ns {n : ℕ} (hr : (n : ℤ) < 2 ^ 63) :
    parseDurationChars (natToChars n ++ ['n', 's']) = some (n : ℤ) := by
  obtain ⟨c, t, hct, hcd⟩ := natToChars_head_digit n
  have hhead : (natToChars n ++ ['n', 's']).head? = some c := by
    rw [hct]
    rfl
  have hsplit := takeWhile_append_all (natToChars n) ['n', 's'] (natToChars_all_digits n)
    (fun c2 h2 => by cases h2; decide)
  rw [parseDurationChars, hhead]
  rw [if_neg (fun hh => isDigit_ne hcd (by decide) (Option.some.inj hh))]
  rw [if_neg (fun hh => isDigit_ne hcd (by decide) (Option.some.inj hh))]
  unfold parseDurationMag
  rw [hsplit.1, hsplit.2, parseNatDigits_natToChars]
  show (if (n : ℤ) * 1 < 2 ^ 63 then some ((n : ℤ) * 1) else none) = _
  rw [mul_one, if_pos hr]

theorem parseAs_duration_ns {n : ℕ} (hr : (n : ℤ) < 2 ^ 63) :
    parseAs .durationType (String.mk (natToChars n ++ ['n', 's'])) =
      some (.duration (n : ℤ)) := by
  show (parseDurationChars (natToChars n ++ ['n', 's'])).map Value.duration = _
  rw [parseDuration_digits_ns hr]
  rfl

theorem applyFileValue_duration {ft : List (String × Kind)} {fls : List FlagEntry}
    {key : String} {e : FlagEntry} (n : ℕ)
    (hft : assocGet ft key = some .durationType)
    (hf : findFlag fls key = some e) (hk : e.kind = .durationType)
    (hr : (n : ℤ) < 2 ^ 63) :
    applyFileValue ft fls key (.num ((n : ℕ) : ℚ)) =
      .ok (setValue fls key (.duration (n : ℤ))) := by
  unfold applyFileValue
  rw [hft]
  show Except.ok (flagSetSet fls key (String.mk (durationFileChars ((n : ℕ) : ℚ)))).1 = _
  rw [durationFileChars_natCast,
    flagSetSet_eq_of hf (by rw [hk]; exact parseAs_duration_ns hr)]

theorem parseUnsignedFloatChars_dot {l frac : List Char}
    (hd : l.dropWhile Char.isDigit = '.' :: frac) :
    parseUnsignedFloatChars l =
      match parseNatDigits (l.takeWhile Char.isDigit), parseNatDigits frac with
      | some n, some fr =>
        some (mkRat ((n : ℤ) * 10 ^ frac.length + (fr : ℤ)) (10 ^ frac.length))
      | _, _ => none := by
  unfold parseUnsignedFloatChars
  rw [hd]
  rfl

theorem parseUnsignedFloat_sixfrac (n6 : ℕ) :
    parseUnsignedFloatChars (natToChars (n6 / 10 ^ 6) ++
      '.' :: padZeroTo 6 (natToChars (n6 % 10 ^ 6))) = some (mkRat (n6 : ℤ) (10 ^ 6)) := by
  have hmod : n6 % 10 ^ 6 < 10 ^ 6 := Nat.mod_lt _ (by norm_num)
  have hlen : (padZeroTo 6 (natToChars (n6 % 10 ^ 6))).length = 6 :=
    padZeroTo_length (natToChars_length_le hmod (by norm_num))
  have hsplit := takeWhile_append_all (natToChars (n6 / 10 ^ 6))
    ('.' :: padZeroTo 6 (natToChars (n6 % 10 ^ 6)))
    (natToChars_all_digits _) (fun c2 h2 => by cases h2; decide)
  rw [parseUnsignedFloatChars_dot hsplit.2, hsplit.1, parseNatDigits_natToChars,
    parseNatDigits_padZero]
  show some (mkRat
      (((n6 / 10 ^ 6 : ℕ) : ℤ) * 10 ^ (padZeroTo 6 (natToChars (n6 % 10 ^ 6))).length
        + ((n6 % 10 ^ 6 : ℕ) : ℤ))
      (10 ^ (padZeroTo 6 (natToChars (n6 % 10 ^ 6))).length)) = _
  rw [hlen]
  have harg : (((n6 / 10 ^ 6 : ℕ) : ℤ) * 10 ^ 6 + ((n6 % 10 ^ 6 : ℕ) : ℤ)) = (n6 : ℤ) := by
    have hdm := Nat.div_add_mod n6 (10 ^ 6)
    push_cast
    push_cast at hdm
    linarith
  rw [harg]

theorem parseFloat_fmtF6_general (q : ℚ) :
    parseFloatChars (fmtF6 q) = some (roundSixDecimals q) := by
  obtain ⟨c, t, hct, hcd⟩ :=
    natToChars_head_digit (rheDiv (q.num.natAbs * 10 ^ 6) q.den / 10 ^ 6)
  by_cases hq : q.num < 0
  · have hfmt : fmtF6 q =
        '-' :: (natToChars (rheDiv (q.num.natAbs * 10 ^ 6) q.den / 10 ^ 6) ++
          '.' :: padZeroTo 6 (natToChars (rheDiv (q.num.natAbs * 10 ^ 6) q.den % 10 ^ 6))) := by
      show (if q.num < 0 then ['-'] else []) ++
          natToChars (rheDiv (q.num.natAbs * 10 ^ 6) q.den / 10 ^ 6) ++
            '.' :: padZeroTo 6 (natToChars (rheDiv (q.num.natAbs * 10 ^ 6) q.den % 10 ^ 6)) = _
      rw [if_pos hq]
      rfl
    rw [hfmt, parseFloatChars]
    show (parseUnsignedFloatChars
        (natToChars (rheDiv (q.num.natAbs * 10 ^ 6) q.den / 10 ^ 6) ++
          '.' :: padZeroTo 6 (natToChars
            (rheDiv (q.num.natAbs * 10 ^ 6) q.den % 10 ^ 6)))).map (fun x => -x) = _
    rw [parseUnsignedFloat_sixfrac, roundSixDecimals, if_pos hq]
    rfl
  · have hfmt : fmtF6 q =
        natToChars (rheDiv (q.num.natAbs * 10 ^ 6) q.den / 10 ^ 6) ++
          '.' :: padZeroTo 6 (natToChars (rheDiv (q.num.natAbs * 10 ^ 6) q.den % 10 ^ 6)) := by
      show (if q.num < 0 then ['-'] else []) ++
          natToChars (rheDiv (q.num.natAbs * 10 ^ 6) q.den / 10 ^ 6) ++
            '.' :: padZeroTo 6 (natToChars (rheDiv (q.num.natAbs * 10 ^ 6) q.den % 10 ^ 6)) = _
      rw [if_neg hq, List.nil_append]
    have hhead : (natToChars (rheDiv (q.num.natAbs * 10 ^ 6) q.den / 10 ^ 6) ++
        '.' :: padZeroTo 6 (natToChars (rheDiv (q.num.natAbs * 10 ^ 6) q.den % 10 ^ 6))).head?
          = some c := by
      rw [hct]
      rfl
    rw [hfmt, parseFloatChars, hhead]
    rw [if_neg (fun hh => isDigit_ne hcd (by decide) (Option.some.inj hh))]
    rw [if_neg (fun hh => isDigit_ne hcd (by decide) (Option.some.inj hh))]
    rw [parseUnsignedFloat_sixfrac, roundSixDecimals, if_neg hq]

theorem parseFloat_fmtF6 {q : ℚ} (hq : 0 ≤ q.num) :
    parseFloatChars (fmtF6 q) =
      some (mkRat ((rheDiv (q.num.natAbs * 10 ^ 6) q.den : ℕ) : ℤ) (10 ^ 6)) := by
  rw [parseFloat_fmtF6_general, roundSixDecimals, if_neg (Int.not_lt.mpr hq)]

theorem parseAs_float_fmtF6 {q : ℚ} (hq : 0 ≤ q.num) :
    parseAs .floatType (String.mk (fmtF6 q)) =
      some (.float (mkRat ((rheDiv (q.num.natAbs * 10 ^ 6) q.den : ℕ) : ℤ) (10 ^ 6))) := by
  show (parseFloatChars (fmtF6 q)).map Value.float = _
  rw [parseFloat_fmtF6 hq]
  rfl

theorem applyFileValue_float {ft : List (String × Kind)} {fls : List FlagEntry}
    {key : String} {e : FlagEntry} {q : ℚ}
    (hft : assocGet ft key = some .floatType)
    (hf : findFlag fls key = some e) (hk : e.kind = .floatType) (hq : 0 ≤ q.num) :
    applyFileValue ft fls key (.num q) =
      .ok (setValue fls key
        (.float (mkRat ((rheDiv (q.num.natAbs * 10 ^ 6) q.den : ℕ) : ℤ) (10 ^ 6)))) := by
  unfold applyFileValue
  rw [hft]
  show Except.ok (flagSetSet fls key (String.mk (fmtF6 q))).1 = _
  rw [flagSetSet_eq_of hf (by rw [hk]; exact parseAs_float_fmtF6 hq)]

theorem parseAs_float_fmtF6_general (q : ℚ) :
    parseAs .floatType (String.mk (fmtF6 q)) = some (.float (roundSixDecimals q)) := by
  show (parseFloatChars (fmtF6 q)).map Value.float = _
  rw [parseFloat_fmtF6_general]
  rfl

theorem fileSetString_float {ft : List (String × Kind)} {key : String} (q : ℚ)
    (hty : assocGet ft key = some .floatType) :
    fileSetString ft key (.num q) = some (String.mk (fmtF6 q)) := by
  unfold fileSetString
  rw [hty]
  rfl

theorem processEntries_unsupported {ft : List (String × Kind)} {uv : List String}
    {key : String} :
    ∀ {ents : List (String × JSONValue)} {fls : List FlagEntry},
      (key, JSONValue.unsupported) ∈ ents → key ∈ uv →
      ∀ fls2, processEntries ft uv fls ents ≠ .ok fls2 := by
  intro ents
  induction ents with
  | nil => intro fls h; cases h
  | cons kv rest ih =>
    intro fls hmem huv fls2 h
    obtain ⟨k0, v0⟩ := kv
    rw [processEntries] at h
    by_cases hm : k0 ∈ uv
    · rw [if_pos hm] at h
      cases ha : applyFileValue ft fls k0 v0 with
      | error f => simp only [ha] at h; cases h
      | ok fls3 =>
        simp only [ha] at h
        cases hmem with
        | head =>
          rw [applyFileValue] at ha
          cases ha
        | tail _ hm2 => exact ih hm2 huv fls2 h
    · rw [if_neg hm] at h
      cases hmem with
      | head => exact hm huv
      | tail _ hm2 => exact ih hm2 huv fls2 h

theorem applyFileValue_eq_set {ft : List (String × Kind)} {fls : List FlagEntry}
    {key : String} {v : JSONValue} {s : String}
    (hs : fileSetString ft key v = some s) :
    applyFileValue ft fls key v = .ok (flagSetSet fls key s).1 := by
  cases v with
  | bool b =>
    rw [fileSetString] at hs
    cases hs
    rfl
  | str s2 =>
    rw [fileSetString] at hs
    cases hs
    rfl
  | num q =>
    unfold applyFileValue
    unfold fileSetString at hs
    rcases hk : (assocGet ft key).getD .intType <;>
      simp only [hk] at hs ⊢ <;> cases hs <;> rfl
  | unsupported =>
    rw [fileSetString] at hs
    cases hs

theorem processEntries_target {ft : List (String × Kind)} {uv : List String}
    {name : String} {v : JSONValue} {s : String} {w : Value} :
    ∀ {ents : List (String × JSONValue)} {fls fls2 : List FlagEntry} {e : FlagEntry},
      (ents.map Prod.fst).Nodup → (name, v) ∈ ents → name ∈ uv →
      fileSetString ft name v = some s →
      findFlag fls name = some e → parseAs e.kind s = some w →
      processEntries ft uv fls ents = .ok fls2 →
      findFlag fls2 name = some { e with value := w } := by
  intro ents
  induction ents with
  | nil => intro fls fls2 e _ hm; cases hm
  | cons kv rest ih =>
    intro fls fls2 e hnd hm huv hs hf hw h
    obtain ⟨k0, v0⟩ := kv
    rw [List.map_cons, List.nodup_cons] at hnd
    rw [processEntries] at h
    cases hm with
    | head =>
      rw [if_pos huv] at h
      rw [applyFileValue_eq_set hs] at h
      simp only [flagSetSet_eq_of hf hw] at h
      have hrest : ∀ kv2 ∈ rest, kv2.1 ∈ uv → kv2.1 ≠ name := by
        intro kv2 hkv2 _ hh
        have hmm : kv2.1 ∈ rest.map Prod.fst := List.mem_map_of_mem Prod.fst hkv2
        rw [hh] at hmm
        exact hnd.1 hmm
      rw [processEntries_preserve hrest h]
      exact findFlag_setValue_self w hf
    | tail _ hm2 =>
      have hkne : k0 ≠ name := by
        intro hh
        have hmm : (name, v).1 ∈ rest.map Prod.fst := List.mem_map_of_mem Prod.fst hm2
        rw [← hh] at hmm
        exact hnd.1 hmm
      by_cases hmem0 : k0 ∈ uv
      · rw [if_pos hmem0] at h
        cases ha : applyFileValue ft fls k0 v0 with
        | error f => simp only [ha] at h; cases h
        | ok fls3 =>
          simp only [ha] at h
          refine ih hnd.2 hm2 huv hs ?_ hw h
          rw [applyFileValue_ok_ne ha name (fun hh => hkne hh.symm)]
          exact hf
      · rw [if_neg hmem0] at h
        exact ih hnd.2 hm2 huv hs hf hw h

/-- C5 — counterexample. The claim says a configuration-file value of
mismatching JSON kind is skipped with a logged warning and the setting
keeps its prior value; in fact a JSON bool for the String-declared
setting `s` is coerced through the bool arm of the type switch: the
resolved value becomes the string `"true"` (not the default `"d"`), and
the run produces no log line at all. -/
theorem flagfig_kind_mismatch_counterexample :
    resolvedValue (runFlagfig c5decls c5args c5env c5fsys) "s" = some (.str "true") ∧
    runLogs (runFlagfig c5decls c5args c5env c5fsys) = [] ∧
    Value.str "true" ≠ Value.str "d" :=
  ⟨by decide, by decide, by decide⟩

/-- C5 — amended. A JSON number for a String- or Bool-declared setting
matches no arm of the inner kind switch: it is skipped silently (no log
line exists in that code path) and the registry is unchanged; a JSON
bool for a String-declared setting is not skipped but stored as the
string `"true"` / `"false"`. -/
theorem flagfig_kind_mismatch_amended (ft : List (String × Kind))
    (fls : List FlagEntry) (key : String) (q : ℚ) (b : Bool) (e : FlagEntry) :
    ((assocGet ft key).getD .intType = .stringType →
      applyFileValue ft fls key (.num q) = .ok fls) ∧
    ((assocGet ft key).getD .intType = .boolType →
      applyFileValue ft fls key (.num q) = .ok fls) ∧
    (findFlag fls key = some e → e.kind = .stringType →
      applyFileValue ft fls key (.bool b) =
        .ok (setValue fls key (.str (if b then "true" else "false")))) := by
  refine ⟨fun h => ?_, fun h => ?_, fun hf hk => ?_⟩
  · unfold applyFileValue
    rw [h]
  · unfold applyFileValue
    rw [h]
  · show Except.ok (flagSetSet fls key (if b then "true" else "false")).1 = _
    rw [flagSetSet_eq_of hf (by rw [hk]; rfl)]

/-- C5 — witness for the amended theorem at concrete inputs. -/
theorem flagfig_kind_mismatch_amended_witness :
    (applyFileValue [("s", Kind.stringType)] c5fls "s" (.num 5) = .ok c5fls) ∧
    (applyFileValue [("t", Kind.boolType)] c5fls "t" (.num 5) = .ok c5fls) ∧
    (applyFileValue [("s", Kind.stringType)] c5fls "s" (.bool true) =
      .ok (setValue c5fls "s" (.str "true"))) :=
  ⟨(flagfig_kind_mismatch_amended [("s", Kind.stringType)] c5fls "s" 5 true c5entry).1
      (by decide),
   (flagfig_kind_mismatch_amended [("t", Kind.boolType)] c5fls "t" 5 true c5entry).2.1
      (by decide),
   (flagfig_kind_mismatch_amended [("s", Kind.stringType)] c5fls "s" 5 true c5entry).2.2
      (by decide) (by decide)⟩

/-- C6: during one resolution pass, with a non-empty path at the head
of the configuration-file list — a JSON-decode failure is non-fatal
(the decode-failure log line is appended and the remaining files are
processed from the same state), an unreadable file is fatal
(`panic(err)`), and an unsupported JSON value for a registered
not-explicitly-set setting is fatal (`log.Fatalf`): the pass can never
return normally. -/
theorem flagfig_file_error_fatality (fsys : String → ReadResult)
    (ft : List (String × Kind)) (uv : List String) (cf : String)
    (rest : List String) (fls : List FlagEntry) (logs : List LogEntry) (p : String)
    (hpv : pathValue fls cf = p) (hne : p ≠ "") :
    (fsys p = .badJSON →
      readFilesAux fsys ft uv (cf :: rest) fls logs =
        readFilesAux fsys ft uv rest fls (logs ++ [.decodeFailure p])) ∧
    (fsys p = .unreadable →
      readFilesAux fsys ft uv (cf :: rest) fls logs = .error (.readError p)) ∧
    (∀ ents k, fsys p = .object ents → (k, JSONValue.unsupported) ∈ ents → k ∈ uv →
      ∀ out, readFilesAux fsys ft uv (cf :: rest) fls logs ≠ .ok out) := by
  refine ⟨fun h => ?_, fun h => ?_, fun ents k hob hmem huv out habs => ?_⟩
  · rw [readFilesAux]
    simp only [hpv]
    rw [if_neg hne, h]
  · rw [readFilesAux]
    simp only [hpv]
    rw [if_neg hne, h]
  · rw [readFilesAux] at habs
    simp only [hpv] at habs
    rw [if_neg hne, hob] at habs
    cases hpe : processEntries ft uv fls ents with
    | error f => simp only [hpe] at habs; cases habs
    | ok fls3 => exact processEntries_unsupported hmem huv fls3 hpe

/-- C6 — witness: the three behaviors at concrete states. -/
theorem flagfig_file_error_fatality_witness :
    (readFilesAux c6fsys [] ["k"] ["c"] c6fls [] =
      readFilesAux c6fsys [] ["k"] [] c6fls [.decodeFailure "pb"]) ∧
    (readFilesAux c6fsys [] ["k"] ["c"] c6flsU [] = .error (.readError "pu")) ∧
    (readFilesAux c6fsys [] ["k"] ["c"] c6flsO [] ≠ .ok (c6flsO, [])) :=
  ⟨by
    have h := (flagfig_file_error_fatality c6fsys [] ["k"] "c" [] c6fls [] "pb"
      (by decide) (by decide)).1 (by decide)
    simpa using h,
   (flagfig_file_error_fatality c6fsys [] ["k"] "c" [] c6flsU [] "pu"
      (by decide) (by decide)).2.1 (by decide),
   (flagfig_file_error_fatality c6fsys [] ["k"] "c" [] c6flsO [] "po"
      (by decide) (by decide)).2.2 [("k", .unsupported)] "k" (by decide) (by decide)
      (by decide) (c6flsO, [])⟩

/-- C7: a JSON number for a Duration-declared not-explicitly-set
setting is formatted as its decimal digits with an explicit `ns`
suffix and set, so the number is interpreted as nanoseconds; in
particular a run whose file holds `30000000000` resolves the setting to
thirty seconds (`30 * 10^9` nanoseconds). -/
theorem flagfig_duration_nanoseconds :
    (∀ (ft : List (String × Kind)) (fls : List FlagEntry) (key : String) (n : ℕ)
       (e : FlagEntry),
       assocGet ft key = some .durationType →
       findFlag fls key = some e → e.kind = .durationType → (n : ℤ) < 2 ^ 63 →
       durationFileChars ((n : ℕ) : ℚ) = natToChars n ++ ['n', 's'] ∧
       applyFileValue ft fls key (.num ((n : ℕ) : ℚ)) =
         .ok (setValue fls key (.duration (n : ℤ)))) ∧
    resolvedValue (runFlagfig c7decls c7args c7env c7fsys) "DurationConfig" =
      some (.duration (30 * 1000000000)) := by
  constructor
  · intro ft fls key n e hft hf hk hr
    exact ⟨durationFileChars_natCast n, applyFileValue_duration n hft hf hk hr⟩
  · decide

/-- C7 — witness for the general conjunct at a concrete input. -/
theorem flagfig_duration_nanoseconds_witness :
    durationFileChars ((5 : ℕ) : ℚ) = natToChars 5 ++ ['n', 's'] ∧
    applyFileValue [("d", Kind.durationType)] c7fls "d" (.num ((5 : ℕ) : ℚ)) =
      .ok (setValue c7fls "d" (.duration (5 : ℤ))) :=
  flagfig_duration_nanoseconds.1 [("d", Kind.durationType)] c7fls "d" 5 c7entry
    (by decide) (by decide) (by decide) (by decide)

/-- C8 — counterexample. The claim says a Float64 file value is
formatted at full precision so no precision is lost; in fact `%f`
formats with six fractional digits: the exactly-representable file
value `1/1024 = 0.0009765625` resolves to `0.000977 = 977/10^6`, which
differs from the file's value. -/
theorem flagfig_float_precision_counterexample :
    resolvedValue (runFlagfig c8decls c8args c8env c8fsys) "x" =
      some (.float (mkRat 977 1000000)) ∧
    mkRat 977 1000000 ≠ mkRat 1 1024 :=
  ⟨by decide, by decide⟩

/-- C8 — amended. A JSON number of either sign for a Float64-declared
setting present in the single configured file, not explicitly passed
and not overridden by environment, resolves after `Collate` to the
file's value rounded to six fractional decimal digits (sign preserved,
magnitude rounded ties to even) — Go's default `%f` precision — rather
than the exact file value; the resolution is exact precisely when six
fractional digits suffice. -/
theorem flagfig_float_six_decimals_amended
    (fs : FlagfigSet) (env : String → String) (fsys : String → ReadResult)
    (fs2 : FlagfigSet) (logs : List LogEntry) (err : Option SetErr)
    (cf p name : String) (eC e : FlagEntry)
    (ents : List (String × JSONValue)) (q : ℚ)
    (hnd : (fs.flags.map FlagEntry.name).Nodup)
    (hpaths : fs.configFilePaths = [cf])
    (hfC : findFlag fs.flags cf = some eC) (hvC : eC.visited = true)
    (hpC : eC.value = .str p) (hpne : p ≠ "")
    (hobj : fsys p = .object ents)
    (hmem : (name, JSONValue.num q) ∈ ents)
    (hndE : (ents.map Prod.fst).Nodup)
    (hf : findFlag fs.flags name = some e) (hv : e.visited = false)
    (hty : assocGet fs.flagTypes name = some .floatType)
    (hk : e.kind = .floatType)
    (henv : ∀ en, assocGet fs.envNames name = some en → getenv env en = "")
    (hcol : fs.Collate env fsys = .ok (fs2, logs, err)) :
    (findFlag fs2.flags name).map FlagEntry.value =
      some (.float (roundSixDecimals q)) := by
  obtain ⟨flsF, hrf, hflags, herr⟩ := collate_ok_elim hcol
  have hmemN : name ∈ unvisitedNames fs.flags := mem_unvisitedNames hf hv
  rw [hpaths, readFilesAux] at hrf
  have hpath : pathValue fs.flags cf = p := by
    simp only [pathValue, hfC, hpC]
  simp only [hpath] at hrf
  rw [if_neg hpne] at hrf
  simp only [hobj] at hrf
  cases hpe : processEntries fs.flagTypes (unvisitedNames fs.flags) fs.flags ents with
  | error f => simp only [hpe] at hrf; cases hrf
  | ok fls1 =>
    simp only [hpe] at hrf
    rw [readFilesAux] at hrf
    cases hrf
    have htgt := processEntries_target hndE hmem hmemN (fileSetString_float q hty) hf
      (by rw [hk]; exact parseAs_float_fmtF6_general q) hpe
    rw [hflags, envLoop_preserve_no_trigger env fs.envNames henv _ _ _, htgt]
    rfl

/-- C8 — witness for the amended theorem, at the negative file value
`-1/1024`, which resolves to `-0.000977`. -/
theorem flagfig_float_six_decimals_amended_witness :
    (findFlag c8fs2W.flags "x").map FlagEntry.value =
      some (.float (roundSixDecimals (mkRat (-1) 1024))) :=
  flagfig_float_six_decimals_amended c8fsW c8envW c8fsysW c8fs2W [] none
    "config" "f1" "x" ⟨"config", .stringType, .str "", .str "f1", true⟩
    ⟨"x", .floatType, .float 0, .float 0, false⟩
    [("x", .num (mkRat (-1) 1024))] (mkRat (-1) 1024)
    (by decide) (by decide) (by decide) (by decide) (by decide) (by decide)
    (by decide) (by decide) (by decide) (by decide) (by decide) (by decide)
    (by decide)
    (fun en h => by
      have h2 : (some "" : Option String) = some en :=
        Eq.trans (by decide : (some "" : Option String) = assocGet c8fsW.envNames "x") h
      cases h2
      decide)
    (by decide)

/-- C9: registering a second setting under an already-registered name
raises no error — the registration operation is total and the later
registration's kind, environment name, and default silently replace
the earlier registration's metadata. The `envNames`/`flagTypes` map
overwrites are the literal Go map assignments; the underlying flag
mechanism's `Var` re-binding is modelled from the spec's collaborator
contract (§4.1/§6), its source being outside this repository. -/
theorem flagfig_duplicate_registration_overwrites (fs : FlagfigSet) (name : String)
    (k1 k2 : Kind) (d1 d2 : Value) (e1 e2 : String) :
    assocGet ((fs.declare name k1 d1 e1).declare name k2 d2 e2).flagTypes name = some k2 ∧
    assocGet ((fs.declare name k1 d1 e1).declare name k2 d2 e2).envNames name = some e2 ∧
    findFlag ((fs.declare name k1 d1 e1).declare name k2 d2 e2).flags name =
      some ⟨name, k2, d2, d2, false⟩ :=
  ⟨assocGet_upsert_self _ _ _, assocGet_upsert_self _ _ _,
   findFlag_flagUpsert_self _ ⟨name, k2, d2, d2, false⟩⟩

/-- C1: a flag explicitly supplied on the command line (visited during
flag parsing) keeps exactly the entry captured at parse time — its
resolved value is the command-line value — no matter what any
configuration file or environment variable says: `Collate` only ever
writes through the not-explicitly-set name set. -/
theorem flagfig_cmdline_flags_never_touched
    (fs : FlagfigSet) (args : List (String × String)) (env : String → String)
    (fsys : String → ReadResult) (fs2 : FlagfigSet) (logs : List LogEntry)
    (err : Option SetErr) (fls1 : List FlagEntry) (name : String) (e : FlagEntry)
    (hparse : fs.Parse args env fsys = .ok (fs2, logs, err))
    (hcmd : applyCmdline fs.flags args = .ok fls1)
    (hnd : (fls1.map FlagEntry.name).Nodup)
    (hf : findFlag fls1 name = some e) (hv : e.visited = true) :
    findFlag fs2.flags name = some e := by
  obtain ⟨fls1b, hcmdb, hcol⟩ := parse_ok_elim hparse
  rw [hcmd] at hcmdb
  injection hcmdb with hfls
  subst hfls
  obtain ⟨flsF, hrf, hflags, herr⟩ := collate_ok_elim hcol
  have hnot : name ∉ unvisitedNames fls1 := not_mem_unvisitedNames hnd hf hv
  rw [hflags, envLoop_preserve_not_mem env _ _ hnot _ _, readFilesAux_preserve hnot hrf]
  exact hf

/-- C1 — witness: `a` is passed as `-a=x` while the file gives
`"filev"` and the environment gives `"envv"`; the resolved entry is
the parse-time one with value `"x"`. -/
theorem flagfig_cmdline_flags_never_touched_witness :
    findFlag c1fs2.flags "a" = some ⟨"a", .stringType, .str "d", .str "x", true⟩ :=
  flagfig_cmdline_flags_never_touched (registerDecls c1decls) c1args c1env c1fsys
    c1fs2 [] none c1fls1 "a" ⟨"a", .stringType, .str "d", .str "x", true⟩
    (by decide) (by decide) (by decide) (by decide) (by decide)

/-- C2: for a not-explicitly-set setting with a non-empty registered
environment name whose variable holds a non-empty value, the resolved
value after `Collate` is that environment value (through the flag's
typed conversion), regardless of what any configuration file
supplied — the environment loop runs after the file merge and
overwrites it. -/
theorem flagfig_env_overrides_file
    (fs : FlagfigSet) (env : String → String) (fsys : String → ReadResult)
    (fs2 : FlagfigSet) (logs : List LogEntry) (err : Option SetErr)
    (name en : String) (e : FlagEntry) (w : Value)
    (hnd : (fs.flags.map FlagEntry.name).Nodup)
    (hf : findFlag fs.flags name = some e) (hv : e.visited = false)
    (hen : assocGet fs.envNames name = some en) (hne : en ≠ "")
    (hval : env en ≠ "") (hw : parseAs e.kind (env en) = some w)
    (hcol : fs.Collate env fsys = .ok (fs2, logs, err)) :
    (findFlag fs2.flags name).map FlagEntry.value = some w := by
  obtain ⟨flsF, hrf, hflags, herr⟩ := collate_ok_elim hcol
  have hmem : name ∈ unvisitedNames fs.flags := mem_unvisitedNames hf hv
  have hgm : getenv env en = env en := by rw [getenv, if_neg hne]
  obtain ⟨e2, hf2, hsh⟩ := findFlag_shape (readFilesAux_ok_shape hrf) hf
  rw [hflags, envLoop_mem_set env fs.envNames hen (by rw [hgm]; exact hval)
    (unvisitedNames fs.flags) (nodup_unvisitedNames hnd) hmem flsF none hf2
    (by rw [← hsh.2.1, hgm]; exact hw)]
  rfl

/-- C2 — witness: the file says `filehost`, the environment says
`db.local`; the environment wins. -/
theorem flagfig_env_overrides_file_witness :
    (findFlag c2fs2.flags "host").map FlagEntry.value = some (.str "db.local") :=
  flagfig_env_overrides_file c2fs c2env c2fsys c2fs2 [] none "host" "HOST_ENV"
    ⟨"host", .stringType, .str "0", .str "0", false⟩ (.str "db.local")
    (by decide) (by decide) (by decide) (by decide) (by decide) (by decide) (by decide)
    (by decide)

/-- C3: configuration files are applied in the registration order of
their path flags — with two files A then B both supplying a value for a
not-explicitly-set setting (and no environment override), the resolved
value is B's value ("last file wins"); and a file whose object does
not mention a name leaves that setting's entry untouched. -/
theorem flagfig_last_file_wins :
    (∀ (fs : FlagfigSet) (env : String → String) (fsys : String → ReadResult)
       (fs2 : FlagfigSet) (logs : List LogEntry) (err : Option SetErr)
       (cfA cfB pA pB name : String) (eA eB e : FlagEntry)
       (entsA entsB : List (String × JSONValue)) (vA vB : JSONValue)
       (sB : String) (w : Value),
       (fs.flags.map FlagEntry.name).Nodup →
       fs.configFilePaths = [cfA, cfB] →
       findFlag fs.flags cfA = some eA → eA.visited = true → eA.value = .str pA →
       pA ≠ "" →
       findFlag fs.flags cfB = some eB → eB.visited = true → eB.value = .str pB →
       pB ≠ "" →
       fsys pA = .object entsA → fsys pB = .object entsB →
       (name, vA) ∈ entsA → (name, vB) ∈ entsB →
       (entsB.map Prod.fst).Nodup →
       findFlag fs.flags name = some e → e.visited = false →
       fileSetString fs.flagTypes name vB = some sB →
       parseAs e.kind sB = some w →
       (∀ en, assocGet fs.envNames name = some en → getenv env en = "") →
       fs.Collate env fsys = .ok (fs2, logs, err) →
       (findFlag fs2.flags name).map FlagEntry.value = some w) ∧
    (∀ (ft : List (String × Kind)) (uv : List String) (fls fls2 : List FlagEntry)
       (ents : List (String × JSONValue)) (name : String),
       (∀ kv ∈ ents, kv.1 ≠ name) → processEntries ft uv fls ents = .ok fls2 →
       findFlag fls2 name = findFlag fls name) := by
  constructor
  · intro fs env fsys fs2 logs err cfA cfB pA pB name eA eB e entsA entsB vA vB sB w
      hnd hpaths hfA hvA hpvA hpAne hfB hvB hpvB hpBne hoA hoB hmA hmB hndB hfN hvN
      hsB hw henv hcol
    obtain ⟨flsF, hrf, hflags, herr⟩ := collate_ok_elim hcol
    have hmemN : name ∈ unvisitedNames fs.flags := mem_unvisitedNames hfN hvN
    have hcfB : cfB ∉ unvisitedNames fs.flags := not_mem_unvisitedNames hnd hfB hvB
    rw [hpaths, readFilesAux] at hrf
    have hpathA : pathValue fs.flags cfA = pA := by
      simp only [pathValue, hfA, hpvA]
    simp only [hpathA] at hrf
    rw [if_neg hpAne] at hrf
    simp only [hoA] at hrf
    cases hpeA : processEntries fs.flagTypes (unvisitedNames fs.flags) fs.flags entsA with
    | error f => simp only [hpeA] at hrf; cases hrf
    | ok fls1 =>
      simp only [hpeA] at hrf
      rw [readFilesAux] at hrf
      have hpathB : pathValue fls1 cfB = pB := by
        have hpres := @processEntries_preserve fs.flagTypes (unvisitedNames fs.flags)
          entsA cfB (fun kv _ hm hh => hcfB (by rw [← hh]; exact hm)) fs.flags fls1 hpeA
        simp only [pathValue, hpres, hfB, hpvB]
      simp only [hpathB] at hrf
      rw [if_neg hpBne] at hrf
      simp only [hoB] at hrf
      cases hpeB : processEntries fs.flagTypes (unvisitedNames fs.flags) fls1 entsB with
      | error f => simp only [hpeB] at hrf; cases hrf
      | ok fls2b =>
        simp only [hpeB] at hrf
        rw [readFilesAux] at hrf
        cases hrf
        obtain ⟨e1, hf1, hsh1⟩ := findFlag_shape (processEntries_ok_shape hpeA) hfN
        have htgt := processEntries_target hndB hmB hmemN hsB hf1
          (by rw [← hsh1.2.1]; exact hw) hpeB
        rw [hflags, envLoop_preserve_no_trigger env fs.envNames henv _ _ _, htgt]
        rfl
  · intro ft uv fls fls2 ents name hk hpe
    exact processEntries_preserve (fun kv hkv _ => hk kv hkv) hpe

/-- C3 — witness: file A gives `x = 5`, file B gives `x = 7`; the
resolved value is 7; and a file mentioning only `y` leaves `x`
untouched. -/
theorem flagfig_last_file_wins_witness :
    (findFlag c3fs2.flags "x").map FlagEntry.value = some (.int 7) ∧
    findFlag c3dfls "x" = findFlag c3dfls "x" :=
  ⟨flagfig_last_file_wins.1 c3fs c3env c3fsys c3fs2 [] none "cA" "cB" "fA" "fB" "x"
    ⟨"cA", .stringType, .str "", .str "fA", true⟩
    ⟨"cB", .stringType, .str "", .str "fB", true⟩
    ⟨"x", .intType, .int 1, .int 1, false⟩
    [("x", .num 5)] [("x", .num 7)] (.num 5) (.num 7) "7" (.int 7)
    (by decide) (by decide) (by decide) (by decide) (by decide) (by decide)
    (by decide) (by decide) (by decide) (by decide) (by decide) (by decide)
    (by decide) (by decide) (by decide) (by decide) (by decide) (by decide)
    (by decide)
    (fun en h => by
      have h2 : (some "" : Option String) = some en :=
        Eq.trans (by decide : (some "" : Option String) = assocGet c3fs.envNames "x") h
      cases h2
      decide)
    (by decide),
   flagfig_last_file_wins.2 [] ["x", "y"] c3dfls c3dfls [("y", .str "v")] "x"
    (by decide) (by decide)⟩

/-- C4: a setting not passed on the command line, with no matching key
in any readable configuration file and no non-empty environment value,
resolves to the default supplied at registration. -/
theorem flagfig_default_when_no_source
    (decls : List Decl) (args : List (String × String)) (env : String → String)
    (fsys : String → ReadResult) (fs2 : FlagfigSet) (logs : List LogEntry)
    (err : Option SetErr) (name : String) (k : Kind) (d : Value) (en : String)
    (hnd : (decls.map declName).Nodup)
    (hdecl : Decl.setting name k d en ∈ decls)
    (hargs : ∀ p ∈ args, p.1 ≠ name)
    (hfile : ∀ p ents, fsys p = .object ents → ∀ kv ∈ ents, kv.1 ≠ name)
    (henv : getenv env en = "")
    (hrun : runFlagfig decls args env fsys = .ok (fs2, logs, err)) :
    (findFlag fs2.flags name).map FlagEntry.value = some d := by
  obtain ⟨hfind, hen, hty⟩ := registerFold_find decls NewFlagfigSet hdecl hnd
  have hrun2 : (registerDecls decls).Parse args env fsys = .ok (fs2, logs, err) := hrun
  obtain ⟨fls1, hcmd, hcol⟩ := parse_ok_elim hrun2
  obtain ⟨flsF, hrf, hflags, herr⟩ := collate_ok_elim hcol
  have h1 : findFlag fls1 name = some ⟨name, k, d, d, false⟩ :=
    (applyCmdline_preserve hcmd hargs).trans hfind
  rw [hflags, envLoop_preserve_no_trigger env _ (fun en2 hen2 => by
      have h3 : some en = some en2 := Eq.trans hen.symm hen2
      cases h3
      exact henv) _ _ _,
    readFilesAux_preserve_nokey hfile hrf, h1]
  rfl

/-- C4 — witness: `count` declared with default `1`, configured file is
malformed JSON (so it supplies no keys), no environment name; the
resolved value is the default. -/
theorem flagfig_default_when_no_source_witness :
    (findFlag c4fs2.flags "count").map FlagEntry.value = some (.int 1) :=
  flagfig_default_when_no_source c4decls c4args c4env c4fsys c4fs2
    [.decodeFailure "f1"] none "count" .intType (.int 1) ""
    (by decide) (by decide) (by decide)
    (by intro p ents h; simp [c4fsys] at h) (by decide) (by decide)

/-- C10: when exactly one not-explicitly-set setting triggers the
environment loop (non-empty environment name and value) and that value
fails the typed conversion, `Collate` — and hence `Parse` — returns
that `Set` error; and when no setting triggers the environment loop,
`Collate` returns no error at all, whatever the configuration files
contain: every error from setting a file-derived value is discarded. -/
theorem flagfig_env_error_returned_file_error_discarded :
    (∀ (fs : FlagfigSet) (env : String → String) (fsys : String → ReadResult)
       (fs2 : FlagfigSet) (logs : List LogEntry) (err : Option SetErr)
       (name en : String) (e : FlagEntry),
       (unvisitedNames fs.flags).filter (envTrig fs.envNames env) = [name] →
       assocGet fs.envNames name = some en → getenv env en ≠ "" →
       findFlag fs.flags name = some e →
       parseAs e.kind (getenv env en) = none →
       fs.Collate env fsys = .ok (fs2, logs, err) →
       err = some (.parseFailure name (getenv env en))) ∧
    (∀ (fs : FlagfigSet) (env : String → String) (fsys : String → ReadResult)
       (fs2 : FlagfigSet) (logs : List LogEntry) (err : Option SetErr),
       (unvisitedNames fs.flags).filter (envTrig fs.envNames env) = [] →
       fs.Collate env fsys = .ok (fs2, logs, err) →
       err = none) := by
  constructor
  · intro fs env fsys fs2 logs err name en e hfil hen hval hf hfail hcol
    obtain ⟨flsF, hrf, hflags, herr⟩ := collate_ok_elim hcol
    obtain ⟨e2, hf2, hsh⟩ := findFlag_shape (readFilesAux_ok_shape hrf) hf
    exact herr.trans (envLoop_err_single env fs.envNames hen hval _ hfil flsF none e2
      hf2 (by rw [← hsh.2.1]; exact hfail))
  · intro fs env fsys fs2 logs err hfil hcol
    obtain ⟨flsF, hrf, hflags, herr⟩ := collate_ok_elim hcol
    rw [herr, envLoop_no_trigger_all env fs.envNames _ hfil flsF none]

/-- C10 — witness: `IENV=abc` fails the int conversion and is returned
as `Collate`'s error; a file value `"xyz"` that fails the same
conversion produces no error. -/
theorem flagfig_env_error_returned_file_error_discarded_witness :
    (c10fs.Collate c10env c10fsys = .ok (c10fs, [], some (.parseFailure "i" "abc"))) ∧
    (some (SetErr.parseFailure "i" "abc") =
      some (.parseFailure "i" (getenv c10env "IENV"))) ∧
    (c10fsB.Collate c10envB c10fsysB = .ok (c10fsB, [], none)) ∧
    ((none : Option SetErr) = none) :=
  ⟨by decide,
   flagfig_env_error_returned_file_error_discarded.1 c10fs c10env c10fsys c10fs []
     (some (.parseFailure "i" "abc")) "i" "IENV" ⟨"i", .intType, .int 0, .int 0, false⟩
     (by decide) (by decide) (by decide) (by decide) (by decide) (by decide),
   by decide,
   flagfig_env_error_returned_file_error_discarded.2 c10fsB c10envB c10fsysB c10fsB []
     none (by decide) (by decide)⟩

end Flagfig
